import Mathlib

/-!
Verification of the model-aware translation and validation layer of the
gemini-cli-ollama repository.

The embedding models, faithfully to the TypeScript source:
  * `ModelCapabilities.ts` — the capability registry, name normalization and
    `getModelCapabilities` resolution;
  * `OllamaToolTranslator.ts` — tool translation, truncation and validation;
  * `OllamaResponseTranslator` — response validation, hallucination
    filtering and conversion to the caller-facing (Gemini) format;
  * the `OllamaClient` transport — newline-delimited streaming frame reader
    and the retrying `makeRequest` loop.

JavaScript-level behaviour (truthiness, property access on `null`/
`undefined` throwing, `JSON.parse`) is modelled explicitly.  JSON numbers
are kept as their source lexemes, so no floating-point arithmetic is
modelled.
-/

namespace OllamaSpec

/-! ## Character and string helpers (JS semantics) -/

/-- JSON whitespace characters accepted by `JSON.parse` between tokens. -/
def isJsonWs (c : Char) : Bool :=
  c = ' ' ∨ c = '\t' ∨ c = '\n' ∨ c = '\r'

/-- The ASCII part of the JavaScript `\s` / `String.trim` whitespace class. -/
def isJsWs (c : Char) : Bool :=
  c = ' ' ∨ c = '\t' ∨ c = '\n' ∨ c = '\r' ∨ c = '\x0b' ∨ c = '\x0c'

/-- JavaScript `String.prototype.trim` on a character list. -/
def jsTrim (l : List Char) : List Char :=
  ((l.dropWhile isJsWs).reverse.dropWhile isJsWs).reverse

/-- Lower-casing as performed by `toLowerCase` (model ids and descriptions in
this code base are ASCII). -/
def lowerL (l : List Char) : List Char := l.map Char.toLower

/-- `hay.includes(needle)` of JavaScript: substring containment. -/
def listIncludes (hay needle : List Char) : Bool :=
  hay.tails.any (fun t => needle.isPrefixOf t)

/-- JavaScript `hay.includes(needle)` on strings. -/
def strIncludes (hay needle : String) : Bool :=
  listIncludes hay.data needle.data

/-! ## JSON values

`Json` is the result type of `JSON.parse`.  Numbers are represented by their
source lexeme, which keeps the embedding exact and free of floating point. -/

inductive Json where
  | null : Json
  | bool (b : Bool) : Json
  | num (lexeme : String) : Json
  | str (s : String) : Json
  | arr (elems : List Json) : Json
  | obj (fields : List (String × Json)) : Json

mutual

def decEqJson : (a b : Json) → Decidable (a = b)
  | Json.null, Json.null => isTrue rfl
  | Json.bool x, Json.bool y =>
    match decEq x y with
    | isTrue h => isTrue (by rw [h])
    | isFalse h => isFalse (by intro hc; cases hc; exact h rfl)
  | Json.num x, Json.num y =>
    match decEq x y with
    | isTrue h => isTrue (by rw [h])
    | isFalse h => isFalse (by intro hc; cases hc; exact h rfl)
  | Json.str x, Json.str y =>
    match decEq x y with
    | isTrue h => isTrue (by rw [h])
    | isFalse h => isFalse (by intro hc; cases hc; exact h rfl)
  | Json.arr x, Json.arr y =>
    match decEqJsonList x y with
    | isTrue h => isTrue (by rw [h])
    | isFalse h => isFalse (by intro hc; cases hc; exact h rfl)
  | Json.obj x, Json.obj y =>
    match decEqJsonFields x y with
    | isTrue h => isTrue (by rw [h])
    | isFalse h => isFalse (by intro hc; cases hc; exact h rfl)
  | Json.null, Json.bool _ | Json.null, Json.num _ | Json.null, Json.str _
  | Json.null, Json.arr _ | Json.null, Json.obj _
  | Json.bool _, Json.null | Json.bool _, Json.num _ | Json.bool _, Json.str _
  | Json.bool _, Json.arr _ | Json.bool _, Json.obj _
  | Json.num _, Json.null | Json.num _, Json.bool _ | Json.num _, Json.str _
  | Json.num _, Json.arr _ | Json.num _, Json.obj _
  | Json.str _, Json.null | Json.str _, Json.bool _ | Json.str _, Json.num _
  | Json.str _, Json.arr _ | Json.str _, Json.obj _
  | Json.arr _, Json.null | Json.arr _, Json.bool _ | Json.arr _, Json.num _
  | Json.arr _, Json.str _ | Json.arr _, Json.obj _
  | Json.obj _, Json.null | Json.obj _, Json.bool _ | Json.obj _, Json.num _
  | Json.obj _, Json.str _ | Json.obj _, Json.arr _ => isFalse (by intro h; cases h)

def decEqJsonList : (a b : List Json) → Decidable (a = b)
  | [], [] => isTrue rfl
  | [], _ :: _ => isFalse (by intro h; cases h)
  | _ :: _, [] => isFalse (by intro h; cases h)
  | x :: xs, y :: ys =>
    match decEqJson x y with
    | isTrue h1 =>
      match decEqJsonList xs ys with
      | isTrue h2 => isTrue (by rw [h1, h2])
      | isFalse h2 => isFalse (by intro hc; cases hc; exact h2 rfl)
    | isFalse h1 => isFalse (by intro hc; cases hc; exact h1 rfl)

def decEqJsonFields : (a b : List (String × Json)) → Decidable (a = b)
  | [], [] => isTrue rfl
  | [], _ :: _ => isFalse (by intro h; cases h)
  | _ :: _, [] => isFalse (by intro h; cases h)
  | (k1, v1) :: xs, (k2, v2) :: ys =>
    match decEq k1 k2 with
    | isTrue hk =>
      match decEqJson v1 v2 with
      | isTrue hv =>
        match decEqJsonFields xs ys with
        | isTrue ht => isTrue (by rw [hk, hv, ht])
        | isFalse ht => isFalse (by intro hc; cases hc; exact ht rfl)
      | isFalse hv => isFalse (by intro hc; cases hc; exact hv rfl)
    | isFalse hk => isFalse (by intro hc; cases hc; exact hk rfl)

end

instance : DecidableEq Json := decEqJson

/-- First field of a JS object with the given key (keys produced by
`JSON.parse` of well-formed input are unique). -/
def jsonLookup (fields : List (String × Json)) (key : String) : Option Json :=
  (fields.find? (fun p => p.1 = key)).map (fun p => p.2)

/-- A JSON numeric literal denotes zero iff every mantissa digit is `0`
(the exponent never makes a zero mantissa non-zero). -/
def numLexemeIsZero (s : String) : Bool :=
  let mantissa := s.data.takeWhile (fun c => ¬(c = 'e' ∨ c = 'E'))
  mantissa.all (fun c => ¬c.isDigit ∨ c = '0')

/-- JavaScript truthiness of a parsed JSON value. -/
def jsTruthy : Json → Bool
  | Json.null => false
  | Json.bool b => b
  | Json.num s => ¬numLexemeIsZero s
  | Json.str s => s ≠ ""
  | Json.arr _ => true
  | Json.obj _ => true

/-! ### An executable model of `JSON.parse`

Recursive-descent parser over a character list, using fuel for termination
(the fuel is the input length plus one, which is always sufficient since
every recursive call consumes at least one character). -/

def hexVal (c : Char) : Option Nat :=
  if c.isDigit then some (c.toNat - '0'.toNat)
  else if 'a' ≤ c ∧ c ≤ 'f' then some (c.toNat - 'a'.toNat + 10)
  else if 'A' ≤ c ∧ c ≤ 'F' then some (c.toNat - 'A'.toNat + 10)
  else none

def parseEscape : List Char → Option (Char × List Char)
  | '"' :: r => some ('"', r)
  | '\\' :: r => some ('\\', r)
  | '/' :: r => some ('/', r)
  | 'b' :: r => some ('\x08', r)
  | 'f' :: r => some ('\x0c', r)
  | 'n' :: r => some ('\n', r)
  | 'r' :: r => some ('\r', r)
  | 't' :: r => some ('\t', r)
  | 'u' :: a :: b :: c :: d :: r =>
    match hexVal a, hexVal b, hexVal c, hexVal d with
    | some x, some y, some z, some w =>
      some (Char.ofNat (((x * 16 + y) * 16 + z) * 16 + w), r)
    | _, _, _, _ => none
  | _ => none

/-- Body of a JSON string literal after the opening quote; returns the
decoded characters and the remainder after the closing quote. -/
def parseStringBody : Nat → List Char → Option (List Char × List Char)
  | 0, _ => none
  | _, [] => none
  | fuel + 1, c :: r =>
    if c = '"' then some ([], r)
    else if c = '\\' then
      match parseEscape r with
      | some (e, r') =>
        match parseStringBody fuel r' with
        | some (s, rest) => some (e :: s, rest)
        | none => none
      | none => none
    else if c.toNat < 0x20 then none
    else
      match parseStringBody fuel r with
      | some (s, rest) => some (c :: s, rest)
      | none => none

/-- JSON number grammar: `-? (0 | [1-9][0-9]*) (\.[0-9]+)? ([eE][+-]?[0-9]+)?`.
Returns the lexeme. -/
def parseNumberLexeme (l : List Char) : Option (List Char × List Char) :=
  let (sign, l1) :=
    match l with
    | '-' :: r => (['-'], r)
    | _ => ([], l)
  match l1 with
  | [] => none
  | c :: r =>
    if c = '0' then
      let intPart := [c]
      let afterInt := r
      parseFrac sign intPart afterInt
    else if c.isDigit then
      let ds := r.takeWhile Char.isDigit
      parseFrac sign (c :: ds) (r.drop ds.length)
    else none
where
  parseFrac (sign intPart : List Char) (l : List Char) :
      Option (List Char × List Char) :=
    match l with
    | '.' :: r =>
      let ds := r.takeWhile Char.isDigit
      if ds.isEmpty then none
      else parseExp (sign ++ intPart ++ '.' :: ds) (r.drop ds.length)
    | _ => parseExp (sign ++ intPart) l
  parseExp (acc : List Char) (l : List Char) : Option (List Char × List Char) :=
    match l with
    | c :: r =>
      if c = 'e' ∨ c = 'E' then
        let (sgn, r1) :=
          match r with
          | '+' :: r' => (['+'], r')
          | '-' :: r' => (['-'], r')
          | _ => ([], r)
        let ds := r1.takeWhile Char.isDigit
        if ds.isEmpty then none
        else some (acc ++ c :: sgn ++ ds, r1.drop ds.length)
      else some (acc, l)
    | [] => some (acc, l)

def skipWs (l : List Char) : List Char := l.dropWhile isJsonWs

mutual

def parseValue : Nat → List Char → Option (Json × List Char)
  | 0, _ => none
  | fuel + 1, l =>
    match skipWs l with
    | [] => none
    | c :: r =>
      if c = '"' then
        match parseStringBody (r.length + 1) r with
        | some (s, rest) => some (Json.str (String.mk s), rest)
        | none => none
      else if c = '\x7b' then parseObjBody fuel r
      else if c = '[' then parseArrBody fuel r
      else
        match c :: r with
        | 'n' :: 'u' :: 'l' :: 'l' :: rest => some (Json.null, rest)
        | 't' :: 'r' :: 'u' :: 'e' :: rest => some (Json.bool true, rest)
        | 'f' :: 'a' :: 'l' :: 's' :: 'e' :: rest => some (Json.bool false, rest)
        | l' =>
          match parseNumberLexeme l' with
          | some (lex, rest) => some (Json.num (String.mk lex), rest)
          | none => none

def parseArrBody : Nat → List Char → Option (Json × List Char)
  | 0, _ => none
  | fuel + 1, l =>
    match skipWs l with
    | ']' :: rest => some (Json.arr [], rest)
    | l' =>
      match parseValue fuel l' with
      | some (v, rest) => parseArrTail fuel [v] rest
      | none => none

def parseArrTail : Nat → List Json → List Char → Option (Json × List Char)
  | 0, _, _ => none
  | fuel + 1, acc, l =>
    match skipWs l with
    | ',' :: rest =>
      match parseValue fuel rest with
      | some (v, rest') => parseArrTail fuel (acc ++ [v]) rest'
      | none => none
    | ']' :: rest => some (Json.arr acc, rest)
    | _ => none

def parseObjBody : Nat → List Char → Option (Json × List Char)
  | 0, _ => none
  | fuel + 1, l =>
    match skipWs l with
    | '\x7d' :: rest => some (Json.obj [], rest)
    | l' =>
      match parseMember fuel l' with
      | some (kv, rest) => parseObjTail fuel [kv] rest
      | none => none

def parseObjTail : Nat → List (String × Json) → List Char →
    Option (Json × List Char)
  | 0, _, _ => none
  | fuel + 1, acc, l =>
    match skipWs l with
    | ',' :: rest =>
      match parseMember fuel rest with
      | some (kv, rest') => parseObjTail fuel (acc ++ [kv]) rest'
      | none => none
    | '\x7d' :: rest => some (Json.obj acc, rest)
    | _ => none

def parseMember : Nat → List Char → Option ((String × Json) × List Char)
  | 0, _ => none
  | fuel + 1, l =>
    match skipWs l with
    | '"' :: r =>
      match parseStringBody (r.length + 1) r with
      | some (k, rest) =>
        match skipWs rest with
        | ':' :: rest' =>
          match parseValue fuel rest' with
          | some (v, rest'') => some ((String.mk k, v), rest'')
          | none => none
        | _ => none
      | none => none
    | _ => none

end

/-- `JSON.parse` on a character list: `none` models a thrown `SyntaxError`. -/
def parseJsonChars (l : List Char) : Option Json :=
  match parseValue (l.length + 1) l with
  | some (j, rest) => if skipWs rest = [] then some j else none
  | none => none

/-- `JSON.parse` on a string. -/
def parseJson (s : String) : Option Json := parseJsonChars s.data

/-! ## `ModelCapabilities.ts` — the capability registry -/

inductive ToolFormat where
  | openai | hermes | custom
deriving DecidableEq

inductive PromptStyle where
  | standard | agentic | hermes
deriving DecidableEq

inductive MultiTurnSupport where
  | excellent | good | poor
deriving DecidableEq

/-- The optional `config` block of a capabilities entry. -/
structure ModelConfig where
  recommendedContextSize : Option Nat := none
  requiresExplicitToolChoice : Option Bool := none
  specialTokens : Option (List String) := none
deriving DecidableEq

/-- `ModelToolCapabilities` of `ModelCapabilities.ts`. -/
structure ModelToolCapabilities where
  supportsTools : Bool
  toolFormat : ToolFormat
  maxTools : Nat
  supportsParallel : Bool
  supportsStreaming : Bool
  customParser : Option String := none
  promptStyle : PromptStyle
  multiTurnSupport : MultiTurnSupport
  version : Option String := none
  config : Option ModelConfig := none
deriving DecidableEq

def qwen25coder32bCaps : ModelToolCapabilities where
  supportsTools := true
  toolFormat := ToolFormat.hermes
  maxTools := 64
  supportsParallel := true
  supportsStreaming := true
  customParser := some "qwen3coder"
  promptStyle := PromptStyle.hermes
  multiTurnSupport := MultiTurnSupport.good
  config := some { recommendedContextSize := some 32768
                   requiresExplicitToolChoice := some false
                   specialTokens := some ["<tool_call>", "</tool_call>"] }

def qwen25coder14bCaps : ModelToolCapabilities where
  supportsTools := true
  toolFormat := ToolFormat.hermes
  maxTools := 32
  supportsParallel := true
  supportsStreaming := true
  customParser := some "qwen3coder"
  promptStyle := PromptStyle.hermes
  multiTurnSupport := MultiTurnSupport.good
  config := some { recommendedContextSize := some 32768
                   requiresExplicitToolChoice := some false }

def qwen25coder7bCaps : ModelToolCapabilities where
  supportsTools := true
  toolFormat := ToolFormat.hermes
  maxTools := 16
  supportsParallel := false
  supportsStreaming := true
  customParser := some "qwen3coder"
  promptStyle := PromptStyle.hermes
  multiTurnSupport := MultiTurnSupport.good

def mistralLatestCaps : ModelToolCapabilities where
  supportsTools := true
  toolFormat := ToolFormat.openai
  maxTools := 128
  supportsParallel := true
  supportsStreaming := false
  promptStyle := PromptStyle.standard
  multiTurnSupport := MultiTurnSupport.excellent
  config := some { requiresExplicitToolChoice := some true }

def mistralNemoCaps : ModelToolCapabilities where
  supportsTools := true
  toolFormat := ToolFormat.openai
  maxTools := 64
  supportsParallel := true
  supportsStreaming := false
  promptStyle := PromptStyle.standard
  multiTurnSupport := MultiTurnSupport.excellent

def codestralCaps : ModelToolCapabilities where
  supportsTools := true
  toolFormat := ToolFormat.openai
  maxTools := 32
  supportsParallel := true
  supportsStreaming := false
  promptStyle := PromptStyle.standard
  multiTurnSupport := MultiTurnSupport.good

def deepseekChatCaps : ModelToolCapabilities where
  supportsTools := true
  toolFormat := ToolFormat.openai
  maxTools := 128
  supportsParallel := true
  supportsStreaming := false
  promptStyle := PromptStyle.standard
  multiTurnSupport := MultiTurnSupport.poor
  config := some { requiresExplicitToolChoice := some true }

def deepseekReasonerCaps : ModelToolCapabilities where
  supportsTools := true
  toolFormat := ToolFormat.openai
  maxTools := 64
  supportsParallel := true
  supportsStreaming := false
  promptStyle := PromptStyle.standard
  multiTurnSupport := MultiTurnSupport.poor
  version := some "R1-0528"

def kimiK2Caps : ModelToolCapabilities where
  supportsTools := true
  toolFormat := ToolFormat.openai
  maxTools := 64
  supportsParallel := true
  supportsStreaming := true
  promptStyle := PromptStyle.agentic
  multiTurnSupport := MultiTurnSupport.excellent
  config := some { recommendedContextSize := some 128000
                   requiresExplicitToolChoice := some false }

def llama31LatestCaps : ModelToolCapabilities where
  supportsTools := true
  toolFormat := ToolFormat.openai
  maxTools := 32
  supportsParallel := true
  supportsStreaming := true
  promptStyle := PromptStyle.standard
  multiTurnSupport := MultiTurnSupport.good

def llama32LatestCaps : ModelToolCapabilities where
  supportsTools := true
  toolFormat := ToolFormat.openai
  maxTools := 16
  supportsParallel := false
  supportsStreaming := true
  promptStyle := PromptStyle.standard
  multiTurnSupport := MultiTurnSupport.good

def firefunctionV2Caps : ModelToolCapabilities where
  supportsTools := true
  toolFormat := ToolFormat.openai
  maxTools := 64
  supportsParallel := true
  supportsStreaming := false
  promptStyle := PromptStyle.standard
  multiTurnSupport := MultiTurnSupport.good

def commandRPlusCaps : ModelToolCapabilities where
  supportsTools := true
  toolFormat := ToolFormat.openai
  maxTools := 32
  supportsParallel := true
  supportsStreaming := false
  promptStyle := PromptStyle.standard
  multiTurnSupport := MultiTurnSupport.good

/-- `MODEL_CAPABILITIES` as an association list in object-literal insertion
order (`Object.entries` iterates string keys in insertion order). -/
def MODEL_CAPABILITIES : List (String × ModelToolCapabilities) :=
  [ ("qwen2.5-coder:32b", qwen25coder32bCaps)
  , ("qwen2.5-coder:14b", qwen25coder14bCaps)
  , ("qwen2.5-coder:7b", qwen25coder7bCaps)
  , ("mistral:latest", mistralLatestCaps)
  , ("mistral-nemo", mistralNemoCaps)
  , ("codestral", codestralCaps)
  , ("deepseek-chat", deepseekChatCaps)
  , ("deepseek-reasoner", deepseekReasonerCaps)
  , ("kimi-k2", kimiK2Caps)
  , ("llama3.1:latest", llama31LatestCaps)
  , ("llama3.2:latest", llama32LatestCaps)
  , ("firefunction-v2", firefunctionV2Caps)
  , ("command-r-plus", commandRPlusCaps) ]

/-- `DEFAULT_MODEL_CAPABILITIES` for unknown models. -/
def DEFAULT_MODEL_CAPABILITIES : ModelToolCapabilities where
  supportsTools := false
  toolFormat := ToolFormat.openai
  maxTools := 0
  supportsParallel := false
  supportsStreaming := false
  promptStyle := PromptStyle.standard
  multiTurnSupport := MultiTurnSupport.poor

/-- `MODEL_CAPABILITIES[key]` — property lookup on the registry object. -/
def capIndex (key : String) : Option ModelToolCapabilities :=
  (MODEL_CAPABILITIES.find? (fun p => p.1 = key)).map (fun p => p.2)

/-- The `replace` with regex `-\d+[bm]` anchored at the end of the string:
strip a trailing `-<digits>b` or `-<digits>m` size suffix. -/
def stripSizeSuffix (l : List Char) : List Char :=
  match l.reverse with
  | c :: rest =>
    if c = 'b' ∨ c = 'm' then
      let ds := rest.takeWhile Char.isDigit
      if ds.isEmpty then l
      else
        match rest.drop ds.length with
        | '-' :: rest' => rest'.reverse
        | _ => l
    else l
  | [] => l

/-- The `replace` with an end-anchored literal regex: strip the literal
suffix if the string ends with it. -/
def stripSuffixLit (suf : String) (l : List Char) : List Char :=
  if suf.data.reverse.isPrefixOf l.reverse then
    (l.reverse.drop suf.data.length).reverse
  else l

/-- `normalizeModelName` of `ModelCapabilities.ts`: lower-case, collapse
`:` and `@` to `-`, strip a trailing size suffix, then strip literal
`-instruct`, `-chat` and `-latest` suffixes (in that order). -/
def normalizeModelName (modelName : String) : String :=
  let s1 := modelName.data.map Char.toLower
  let s2 := s1.map (fun c => if c = ':' ∨ c = '@' then '-' else c)
  let s3 := stripSizeSuffix s2
  let s4 := stripSuffixLit "-instruct" s3
  let s5 := stripSuffixLit "-chat" s4
  let s6 := stripSuffixLit "-latest" s5
  String.mk s6

/-- `getModelCapabilities` of `ModelCapabilities.ts`: exact raw match, then
exact normalized match, then the first family match in table order
(`modelName.includes(knownModel) || knownModel.includes(normalizedName)` —
note that the first containment test uses the RAW model name), then the
default. -/
def getModelCapabilities (modelName : String) : ModelToolCapabilities :=
  let normalizedName := normalizeModelName modelName
  match capIndex modelName with
  | some caps => caps
  | none =>
    match capIndex normalizedName with
    | some caps => caps
    | none =>
      match MODEL_CAPABILITIES.find?
          (fun p => strIncludes modelName p.1 || strIncludes p.1 normalizedName) with
      | some p => p.2
      | none => DEFAULT_MODEL_CAPABILITIES

/-- `modelSupportsTools` of `ModelCapabilities.ts`. -/
def modelSupportsTools (modelName : String) : Bool :=
  (getModelCapabilities modelName).supportsTools

/-- The resolution algorithm as the claim (C5) words it: step (c) tests
containment of the NORMALIZED id against each registered key in both
directions.  Written from the spec sentence, to be compared against
`getModelCapabilities`. -/
def getModelCapabilitiesClaimC5 (modelId : String) : ModelToolCapabilities :=
  let normalized := normalizeModelName modelId
  match capIndex modelId with
  | some caps => caps
  | none =>
    match capIndex normalized with
    | some caps => caps
    | none =>
      match MODEL_CAPABILITIES.find?
          (fun p => strIncludes normalized p.1 || strIncludes p.1 normalized) with
      | some p => p.2
      | none => DEFAULT_MODEL_CAPABILITIES

/-- The resolution algorithm as amended: step (c) keeps the first table
entry whose key occurs in the RAW id, or whose key contains the normalized
id.  Written as a separate specification-style pipeline of fall-backs. -/
def resolveCapabilitiesAmendedC5 (modelId : String) : ModelToolCapabilities :=
  (((capIndex modelId).orElse (fun _ => capIndex (normalizeModelName modelId))).orElse
    (fun _ =>
      (MODEL_CAPABILITIES.find? (fun p =>
        strIncludes modelId p.1 ||
        strIncludes p.1 (normalizeModelName modelId))).map (fun p => p.2))).getD
    DEFAULT_MODEL_CAPABILITIES

/-! ## Gemini-side tool declarations (`@google/genai` shapes used here) -/

/-- The slice of the Gemini `Schema` type inspected by the translator:
per-parameter schemas expose an optional `description`; all other schema
fields are carried opaquely and passed through untouched. -/
structure ParamSchema where
  description : Option String := none
  otherFields : List (String × Json) := []
deriving DecidableEq

/-- The slice of `FunctionDeclaration.parameters` the translator reads:
`properties` (a record of parameter name to schema) and `required`. -/
structure GeminiSchema where
  properties : Option (List (String × ParamSchema)) := none
  required : Option (List String) := none
deriving DecidableEq

/-- `FunctionDeclaration` of `@google/genai`: all fields optional. -/
structure FunctionDeclaration where
  name : Option String := none
  description : Option String := none
  parameters : Option GeminiSchema := none
deriving DecidableEq

/-- A Gemini `Tool`; `none` models a tool value without a
`functionDeclarations` property. -/
structure Tool where
  functionDeclarations : Option (List FunctionDeclaration) := none
deriving DecidableEq

/-! ## `OllamaTool` (the outbound dialect shape) -/

structure OllamaToolParameters where
  properties : List (String × ParamSchema)
  required : List String
deriving DecidableEq

/-- `OllamaTool.function`; the constant `type: 'function'` tag is implicit. -/
structure OllamaFunctionDef where
  name : String
  description : String
  parameters : OllamaToolParameters
deriving DecidableEq

structure OllamaTool where
  function : OllamaFunctionDef
deriving DecidableEq

/-! ## `OllamaToolTranslator.ts` -/

/-- One global-replace step of the regex `\n\s*\n -> \n`: at a newline whose
following whitespace run contains another newline, the greedy match extends
to the run's last newline and is replaced by a single newline; scanning
resumes after the match. -/
def collapseNlRun : Nat → List Char → List Char
  | 0, l => l
  | fuel + 1, l =>
    match l with
    | [] => []
    | c :: rest =>
      if c = '\n' then
        let ws := rest.takeWhile isJsWs
        if ws.contains '\n' then
          let lastNl := ws.length - 1 - (ws.reverse.findIdx (fun x => x = '\n'))
          '\n' :: collapseNlRun fuel (rest.drop (lastNl + 1))
        else c :: collapseNlRun fuel rest
      else c :: collapseNlRun fuel rest

/-- `sanitizeDescription`: placeholder for the empty description, strip angle
brackets, collapse blank lines, trim, Hermes-style prefixing, and length
truncation with an ellipsis. -/
def sanitizeDescription (description : String) (capabilities : ModelToolCapabilities) :
    String :=
  if description = "" then "No description provided"
  else
    let s1 := description.data.filter (fun c => ¬(c = '<' ∨ c = '>'))
    let s2 := jsTrim (collapseNlRun (s1.length + 1) s1)
    let s3 :=
      if capabilities.toolFormat = ToolFormat.hermes then
        if ¬listIncludes (lowerL s2) "function".data ∧
           ¬listIncludes (lowerL s2) "tool".data then
          "Function to ".data ++ lowerL s2
        else s2
      else s2
    let maxLength := if capabilities.toolFormat = ToolFormat.custom then 200 else 500
    let s4 := if s3.length > maxLength then s3.take (maxLength - 3) ++ "...".data else s3
    String.mk s4

/-- `enhanceParameterDescriptions`: prefix every truthy parameter
description with `"Parameter: "` unless already present. -/
def enhanceParameterDescriptions (properties : List (String × ParamSchema)) :
    List (String × ParamSchema) :=
  properties.map (fun p =>
    match p.2.description with
    | some d =>
      if d ≠ "" ∧ ¬strIncludes d "Parameter:" then
        (p.1, { p.2 with description := some ("Parameter: " ++ d) })
      else p
    | none => p)

/-- `convertParameters`: default to an empty object schema; apply the Hermes
parameter-description enhancement. -/
def convertParameters (functionDecl : FunctionDeclaration)
    (capabilities : ModelToolCapabilities) : OllamaToolParameters :=
  match functionDecl.parameters with
  | none => { properties := [], required := [] }
  | some schema =>
    let props := schema.properties.getD []
    let props :=
      if capabilities.toolFormat = ToolFormat.hermes then
        enhanceParameterDescriptions props
      else props
    { properties := props, required := schema.required.getD [] }

/-- `convertToOpenAIFormat`. -/
def convertToOpenAIFormat (functionDecl : FunctionDeclaration)
    (capabilities : ModelToolCapabilities) : OllamaTool :=
  { function :=
    { name := functionDecl.name.getD "unnamed_function"
      description := sanitizeDescription (functionDecl.description.getD "") capabilities
      parameters := convertParameters functionDecl capabilities } }

/-- `convertToHermesFormat`: the description is extended with an explicit
usage hint before sanitization. -/
def convertToHermesFormat (functionDecl : FunctionDeclaration)
    (capabilities : ModelToolCapabilities) : OllamaTool :=
  let description := functionDecl.description.getD ""
  let enhancedDescription :=
    description ++ "\n\nUse this tool when you need to " ++
      String.mk (lowerL description.data) ++ "."
  { function :=
    { name := functionDecl.name.getD "unnamed_function"
      description := sanitizeDescription enhancedDescription capabilities
      parameters := convertParameters functionDecl capabilities } }

/-- `convertToQwenCoderFormat`: description extended with step-by-step usage
guidance. -/
def convertToQwenCoderFormat (functionDecl : FunctionDeclaration)
    (capabilities : ModelToolCapabilities) : OllamaTool :=
  let description := functionDecl.description.getD ""
  let coderDescription :=
    description ++ "\n\nUsage: Call this function when you need to " ++
      String.mk (lowerL description.data) ++
      ".\nThink step by step before calling this function."
  { function :=
    { name := functionDecl.name.getD "unnamed_function"
      description := sanitizeDescription coderDescription capabilities
      parameters := convertParameters functionDecl capabilities } }

/-- `convertToCustomFormat`: dispatch on `customParser`, falling back to the
OpenAI mapping. -/
def convertToCustomFormat (functionDecl : FunctionDeclaration)
    (capabilities : ModelToolCapabilities) : OllamaTool :=
  match capabilities.customParser with
  | some p =>
    if p = "qwen3coder" then convertToQwenCoderFormat functionDecl capabilities
    else convertToOpenAIFormat functionDecl capabilities
  | none => convertToOpenAIFormat functionDecl capabilities

/-- The `switch (capabilities.toolFormat)` dispatch of `convertSingleTool`
applied to a single function declaration. -/
def convertDeclForFormat (capabilities : ModelToolCapabilities)
    (functionDecl : FunctionDeclaration) : OllamaTool :=
  match capabilities.toolFormat with
  | ToolFormat.openai => convertToOpenAIFormat functionDecl capabilities
  | ToolFormat.hermes => convertToHermesFormat functionDecl capabilities
  | ToolFormat.custom => convertToCustomFormat functionDecl capabilities

/-- `convertSingleTool`: `none` (with a logged warning) when the tool has no
`functionDeclarations` or an empty list; otherwise only the FIRST
declaration is converted. -/
def convertSingleTool (tool : Tool) (capabilities : ModelToolCapabilities) :
    Option OllamaTool :=
  match tool.functionDeclarations with
  | none => none
  | some [] => none
  | some (functionDecl :: _) => some (convertDeclForFormat capabilities functionDecl)

/-- The body of `translateGeminiToolsToOllama` after the capability
lookup: empty when the model does not support tools; otherwise
`tools.slice(0, maxTools)` converted one by one and `null` results
filtered out. -/
def translateToolsForCaps (tools : List Tool)
    (capabilities : ModelToolCapabilities) : List OllamaTool :=
  if ¬capabilities.supportsTools ∨ tools.length = 0 then []
  else
    (tools.take capabilities.maxTools).filterMap
      (fun tool => convertSingleTool tool capabilities)

/-- `translateGeminiToolsToOllama` of `OllamaToolTranslator.ts`. -/
def translateGeminiToolsToOllama (tools : List Tool) (modelName : String) :
    List OllamaTool :=
  translateToolsForCaps tools (getModelCapabilities modelName)

theorem sizeOf_snd_lt_json (q : String × Json) : sizeOf q.2 < sizeOf q := by
  cases q with
  | mk a b => simp only [Prod.mk.sizeOf_spec]; omega

/-- A minimal rendering of `JSON.stringify` for the tool value interpolated
into the missing-declarations warning.  No claim depends on this text; it is
provided so the warning strings are concrete. -/
def renderJson : Json → String
  | Json.null => "null"
  | Json.bool true => "true"
  | Json.bool false => "false"
  | Json.num s => s
  | Json.str s => "\x22" ++ s ++ "\x22"
  | Json.arr xs => "[" ++ String.intercalate "," (xs.attach.map (fun x => renderJson x.1)) ++ "]"
  | Json.obj fs => "\x7b" ++
      String.intercalate ","
        (fs.attach.map (fun p => "\x22" ++ p.1.1 ++ "\x22:" ++ renderJson p.1.2)) ++
      "\x7d"
decreasing_by
  · have h1 := List.sizeOf_lt_of_mem x.2
    simp only [Json.arr.sizeOf_spec]
    omega
  · have h1 := List.sizeOf_lt_of_mem p.2
    have h2 := sizeOf_snd_lt_json p.1
    simp only [Json.obj.sizeOf_spec]
    omega

def renderParamSchema (p : ParamSchema) : String :=
  "\x7b" ++
    (match p.description with
     | some d => "\x22description\x22:\x22" ++ d ++ "\x22" ++
         (if p.otherFields.isEmpty then "" else ",")
     | none => "") ++
    String.intercalate ","
      (p.otherFields.map (fun q => "\x22" ++ q.1 ++ "\x22:" ++ renderJson q.2)) ++
  "\x7d"

def renderFunctionDeclaration (d : FunctionDeclaration) : String :=
  "\x7b" ++
    String.intercalate ","
      ((match d.name with
        | some n => ["\x22name\x22:\x22" ++ n ++ "\x22"]
        | none => []) ++
       (match d.description with
        | some s => ["\x22description\x22:\x22" ++ s ++ "\x22"]
        | none => []) ++
       (match d.parameters with
        | some sch =>
          ["\x22parameters\x22:\x7b" ++
             (match sch.properties with
              | some props => "\x22properties\x22:\x7b" ++
                  String.intercalate ","
                    (props.map (fun q => "\x22" ++ q.1 ++ "\x22:" ++ renderParamSchema q.2)) ++
                  "\x7d"
              | none => "") ++
             (match sch.required with
              | some req => (if sch.properties.isSome then "," else "") ++
                  "\x22required\x22:[" ++
                  String.intercalate "," (req.map (fun r => "\x22" ++ r ++ "\x22")) ++ "]"
              | none => "") ++
           "\x7d"]
        | none => [])) ++
  "\x7d"

/-- `JSON.stringify(tool)` as interpolated into the warning string. -/
def stringifyTool (tool : Tool) : String :=
  match tool.functionDeclarations with
  | none => "\x7b\x7d"
  | some ds =>
    "\x7b\x22functionDeclarations\x22:[" ++
      String.intercalate "," (ds.map renderFunctionDeclaration) ++ "]\x7d"

/-- Whether a tool passes the per-tool check of `validateToolsForModel`:
it has a non-empty `functionDeclarations` array. -/
def toolHasDecls (tool : Tool) : Bool :=
  match tool.functionDeclarations with
  | some (_ :: _) => true
  | _ => false

/-- The truncation warning emitted by `validateToolsForModel`. -/
def truncationWarning (modelName : String) (maxTools got : Nat) : String :=
  "Model " ++ modelName ++ " supports max " ++ toString maxTools ++
    " tools, got " ++ toString got ++ ". Truncating."

structure ToolValidationResult where
  valid : List Tool
  invalid : List Tool
  warnings : List String
deriving DecidableEq

/-- The body of `validateToolsForModel` after the capability lookup. -/
def validateToolsForCaps (tools : List Tool) (modelName : String)
    (capabilities : ModelToolCapabilities) : ToolValidationResult :=
  if ¬capabilities.supportsTools then
    { valid := []
      invalid := tools
      warnings := ["Model " ++ modelName ++ " does not support tool calling"] }
  else
    let truncWarnings :=
      if tools.length > capabilities.maxTools then
        [truncationWarning modelName capabilities.maxTools tools.length]
      else []
    let valid := tools.filter toolHasDecls
    let invalid := tools.filter (fun t => ¬toolHasDecls t)
    { valid := valid
      invalid := invalid
      warnings := truncWarnings ++
        invalid.map (fun t => "Tool missing valid functionDeclarations: " ++ stringifyTool t) }

/-- `validateToolsForModel` of `OllamaToolTranslator.ts`. -/
def validateToolsForModel (tools : List Tool) (modelName : String) :
    ToolValidationResult :=
  validateToolsForCaps tools modelName (getModelCapabilities modelName)

/-! ## `OllamaResponseTranslator` (validation of backend responses)

The `arguments` field of a backend tool call is untrusted: at runtime it is
a string, an object (possibly `null`), or some other JavaScript value.  The
constructors mirror the `typeof` classification the source code branches
on; `argOther` carries the `typeof` tag used in the warning message. -/

inductive ArgsVal where
  | argStr (s : String)
  | argObj (j : Json)
  | argOther (typeName : String)
deriving DecidableEq

structure OllamaCallFunction where
  name : String
  arguments : ArgsVal
deriving DecidableEq

structure OllamaToolCall where
  function : OllamaCallFunction
deriving DecidableEq

structure OllamaMessage where
  role : String := "assistant"
  content : String
  tool_calls : Option (List OllamaToolCall) := none
deriving DecidableEq

/-- `OllamaChatResponse` of `ollamaClient.ts` (typed fields the translator
reads; token counts are non-negative integers). -/
structure OllamaChatResponse where
  model : String
  created_at : String := ""
  message : OllamaMessage
  done : Bool
  done_reason : Option String := none
  prompt_eval_count : Option Nat := none
  eval_count : Option Nat := none
deriving DecidableEq

/-- `ResponseTranslationStats`. -/
structure ResponseTranslationStats where
  totalToolCalls : Nat := 0
  validToolCalls : Nat := 0
  hallucinatedToolCalls : Nat := 0
  invalidJsonCalls : Nat := 0
  unknownToolCalls : Nat := 0
  warnings : List String := []
deriving DecidableEq

/-- Whether a tool declares the given function name (the inner loop of
`findRegisteredTool`). -/
def toolDeclaresName (tool : Tool) (toolName : String) : Bool :=
  match tool.functionDeclarations with
  | some fds => fds.any (fun f => f.name = some toolName)
  | none => false

/-- `findRegisteredTool`: first registered tool declaring the name. -/
def findRegisteredTool (toolName : String) (registeredTools : List Tool) :
    Option Tool :=
  registeredTools.find? (fun t => toolDeclaresName t toolName)

/-- The host JSON parser's `SyntaxError` message is engine-specific; the
text is abstracted since no claim depends on it. -/
def jsonParseErrorMessage (_s : String) : String := "Unexpected token"

/-- `validateToolCallArguments`, boolean outcome: a string must parse as
JSON; an object must be non-null; any other `typeof` is invalid. -/
def validateToolCallArgumentsB (toolCall : OllamaToolCall) : Bool :=
  match toolCall.function.arguments with
  | ArgsVal.argStr s => (parseJson s).isSome
  | ArgsVal.argObj j => j ≠ Json.null
  | ArgsVal.argOther _ => false

/-- `validateToolCallArguments` with its effect on the statistics. -/
def validateToolCallArgumentsSt (toolCall : OllamaToolCall)
    (stats : ResponseTranslationStats) : Bool × ResponseTranslationStats :=
  let fail (msg : String) : Bool × ResponseTranslationStats :=
    (false,
      { stats with
        invalidJsonCalls := stats.invalidJsonCalls + 1
        warnings := stats.warnings ++
          ["Invalid JSON in tool call arguments for " ++
             toolCall.function.name ++ ": " ++ msg] })
  match toolCall.function.arguments with
  | ArgsVal.argStr s =>
    if (parseJson s).isSome then (true, stats) else fail (jsonParseErrorMessage s)
  | ArgsVal.argObj j =>
    if j = Json.null then fail "Arguments cannot be null" else (true, stats)
  | ArgsVal.argOther t => fail ("Invalid arguments type: " ++ t)

/-- `validateForModelSpecificRequirements`, boolean outcome: the qwen3coder
angle-bracket filter, then the poor-multi-turn "follow"/"next" heuristic. -/
def validateForModelSpecificRequirementsB (toolCall : OllamaToolCall)
    (capabilities : ModelToolCapabilities) : Bool :=
  let name := toolCall.function.name
  if capabilities.customParser = some "qwen3coder" ∧
      (name.data.contains '<' ∨ name.data.contains '>') then false
  else if capabilities.multiTurnSupport = MultiTurnSupport.poor ∧
      (strIncludes (String.mk (lowerL name.data)) "follow" ∨
       strIncludes (String.mk (lowerL name.data)) "next") then false
  else true

/-- `validateForModelSpecificRequirements` with its warning effect. -/
def validateForModelSpecificRequirementsSt (toolCall : OllamaToolCall)
    (capabilities : ModelToolCapabilities) (stats : ResponseTranslationStats) :
    Bool × ResponseTranslationStats :=
  let name := toolCall.function.name
  if capabilities.customParser = some "qwen3coder" ∧
      (name.data.contains '<' ∨ name.data.contains '>') then
    (false,
      { stats with warnings := stats.warnings ++
          ["Qwen model used invalid formatting in tool name: " ++ name] })
  else if capabilities.multiTurnSupport = MultiTurnSupport.poor ∧
      (strIncludes (String.mk (lowerL name.data)) "follow" ∨
       strIncludes (String.mk (lowerL name.data)) "next") then
    (false,
      { stats with warnings := stats.warnings ++
          ["DeepSeek model may be hallucinating follow-up call: " ++ name] })
  else (true, stats)

/-- `isValidToolCall`, boolean outcome: existence check, then argument
check, then model-specific check, short-circuiting. -/
def isValidToolCallB (toolCall : OllamaToolCall)
    (capabilities : ModelToolCapabilities) (registeredTools : List Tool) : Bool :=
  (findRegisteredTool toolCall.function.name registeredTools).isSome &&
  validateToolCallArgumentsB toolCall &&
  validateForModelSpecificRequirementsB toolCall capabilities

/-- `isValidToolCall` with its effect on the statistics. -/
def isValidToolCallSt (toolCall : OllamaToolCall)
    (capabilities : ModelToolCapabilities) (registeredTools : List Tool)
    (stats : ResponseTranslationStats) : Bool × ResponseTranslationStats :=
  match findRegisteredTool toolCall.function.name registeredTools with
  | none =>
    (false,
      { stats with
        unknownToolCalls := stats.unknownToolCalls + 1
        warnings := stats.warnings ++
          ["Unknown tool called: " ++ toolCall.function.name] })
  | some _ =>
    match validateToolCallArgumentsSt toolCall stats with
    | (false, stats') => (false, stats')
    | (true, stats') => validateForModelSpecificRequirementsSt toolCall capabilities stats'

/-- The `tool_calls.filter(call => this.isValidToolCall(call, …, stats))`
loop: the predicate is evaluated left to right, threading the mutated
statistics object. -/
def filterToolCalls (calls : List OllamaToolCall)
    (capabilities : ModelToolCapabilities) (registeredTools : List Tool)
    (stats : ResponseTranslationStats) :
    List OllamaToolCall × ResponseTranslationStats :=
  match calls with
  | [] => ([], stats)
  | c :: rest =>
    let step := isValidToolCallSt c capabilities registeredTools stats
    let tailResult := filterToolCalls rest capabilities registeredTools step.2
    (if step.1 then c :: tailResult.1 else tailResult.1, tailResult.2)

/-- `processQwenCoderArguments`: unwrap a `parameters` or `arguments`
wrapper key whose value is itself of object type (JavaScript object or
array; `null` is falsy and never unwrapped). -/
def processQwenCoderArguments (args : Json) : Json :=
  match args with
  | Json.obj fields =>
    let wrapped (key : String) : Option Json :=
      match jsonLookup fields key with
      | some (Json.obj inner) => some (Json.obj inner)
      | some (Json.arr inner) => some (Json.arr inner)
      | _ => none
    match wrapped "parameters" with
    | some v => v
    | none =>
      match wrapped "arguments" with
      | some v => v
      | none => Json.obj fields
  | j => j

/-- Dialect-specific post-processing of parsed arguments
(`capabilities.customParser === 'qwen3coder'`). -/
def applyCustomParser (capabilities : ModelToolCapabilities) (args : Json) : Json :=
  if capabilities.customParser = some "qwen3coder" then
    processQwenCoderArguments args
  else args

/-- Arguments of an emitted Gemini `functionCall`: a parsed JSON value, or
the unchanged non-string non-object JavaScript value. -/
inductive EmittedArgs where
  | json (j : Json)
  | other (typeName : String)
deriving DecidableEq

/-- A part of the emitted Gemini candidate content. -/
inductive GPart where
  | text (s : String)
  | functionCall (name : String) (args : EmittedArgs)
deriving DecidableEq

/-- `convertToolCallToFunctionCall`: parse string arguments (a parse failure
is caught and yields `null`, dropping the call), apply the qwen3coder
argument processing, and keep the name unchanged. -/
def convertToolCallToFunctionCall (toolCall : OllamaToolCall)
    (capabilities : ModelToolCapabilities) : Option (String × EmittedArgs) :=
  match toolCall.function.arguments with
  | ArgsVal.argStr s =>
    match parseJson s with
    | some j => some (toolCall.function.name, EmittedArgs.json (applyCustomParser capabilities j))
    | none => none
  | ArgsVal.argObj j =>
    some (toolCall.function.name, EmittedArgs.json (applyCustomParser capabilities j))
  | ArgsVal.argOther t => some (toolCall.function.name, EmittedArgs.other t)

inductive FinishReason where
  | STOP
deriving DecidableEq

/-- The caller-facing response assembled by `convertToGeminiFormat` (the
single candidate's parts and finish reason, plus usage and model data). -/
structure TranslatedResponse where
  parts : List GPart
  finishReason : Option FinishReason
  promptTokenCount : Nat
  candidatesTokenCount : Nat
  totalTokenCount : Nat
  modelVersion : String
deriving DecidableEq

/-- The `functionCall` parts contributed by the (already filtered)
`tool_calls` array in `convertToGeminiFormat`. -/
def callPartsOf (tool_calls : Option (List OllamaToolCall))
    (capabilities : ModelToolCapabilities) : List GPart :=
  match tool_calls with
  | some calls =>
    if calls.length > 0 then
      calls.filterMap (fun toolCall =>
        (convertToolCallToFunctionCall toolCall capabilities).map
          (fun p => GPart.functionCall p.1 p.2))
    else []
  | none => []

/-- `convertToGeminiFormat` of `OllamaResponseTranslator`: text part for
non-blank content, one `functionCall` part per convertible valid call, an
empty text part when nothing else remains, `STOP` iff `done`. -/
def convertToGeminiFormat (response : OllamaChatResponse)
    (capabilities : ModelToolCapabilities) : TranslatedResponse :=
  let textParts :=
    if response.message.content ≠ "" ∧ jsTrim response.message.content.data ≠ [] then
      [GPart.text response.message.content]
    else []
  let callParts := callPartsOf response.message.tool_calls capabilities
  let parts := textParts ++ callParts
  { parts := if parts.isEmpty then [GPart.text ""] else parts
    finishReason := if response.done then some FinishReason.STOP else none
    promptTokenCount := response.prompt_eval_count.getD 0
    candidatesTokenCount := response.eval_count.getD 0
    totalTokenCount := response.prompt_eval_count.getD 0 + response.eval_count.getD 0
    modelVersion := response.model }

/-- The defensive copy `JSON.parse(JSON.stringify(response))`: every field
of the response model is JSON-serialisable, so the round trip rebuilds the
value structurally. -/
def deepCopyResponse (response : OllamaChatResponse) : OllamaChatResponse :=
  { model := response.model
    created_at := response.created_at
    message :=
      { role := response.message.role
        content := response.message.content
        tool_calls := response.message.tool_calls.map (fun calls =>
          calls.map (fun c => { function := { name := c.function.name
                                              arguments := c.function.arguments } })) }
    done := response.done
    done_reason := response.done_reason
    prompt_eval_count := response.prompt_eval_count
    eval_count := response.eval_count }

/-- `validateAndTranslateResponse` of `OllamaResponseTranslator`: clone the
response, filter the clone's tool calls through `isValidToolCall`, record
statistics and the hallucination warning, then convert to Gemini format. -/
def validateAndTranslateResponse (response : OllamaChatResponse)
    (modelName : String) (registeredTools : List Tool) :
    TranslatedResponse × ResponseTranslationStats :=
  let capabilities := getModelCapabilities modelName
  let stats0 : ResponseTranslationStats := {}
  let validatedResponse := deepCopyResponse response
  match validatedResponse.message.tool_calls with
  | some calls =>
    let stats1 := { stats0 with totalToolCalls := calls.length }
    let filtered := filterToolCalls calls capabilities registeredTools stats1
    let validCalls := filtered.1
    let stats3 :=
      { filtered.2 with
        validToolCalls := validCalls.length
        hallucinatedToolCalls := calls.length - validCalls.length }
    let stats4 :=
      if calls.length - validCalls.length > 0 then
        { stats3 with warnings := stats3.warnings ++
            ["Filtered " ++ toString (calls.length - validCalls.length) ++
               " hallucinated tool calls from " ++ modelName] }
      else stats3
    let updatedResponse :=
      { validatedResponse with
        message := { validatedResponse.message with tool_calls := some validCalls } }
    (convertToGeminiFormat updatedResponse capabilities, stats4)
  | none => (convertToGeminiFormat validatedResponse capabilities, stats0)

/-- Mutation made explicit for the frame claim: the caller's response
object is threaded through the call and returned alongside the result.  The
source's only assignment (`validatedResponse.message.tool_calls = …`)
targets the clone, so the caller's object reaches the end unchanged. -/
def validateAndTranslateResponseTracked (response : OllamaChatResponse)
    (modelName : String) (registeredTools : List Tool) :
    OllamaChatResponse × (TranslatedResponse × ResponseTranslationStats) :=
  (response, validateAndTranslateResponse response modelName registeredTools)

/-! ## The streaming transport (`OllamaClient.generateContentStream`)

A parsed streaming frame is an untyped JSON value; property access follows
JavaScript semantics: reading a property of `null` or `undefined` throws a
`TypeError` (modelled as `Except.error`), reading a missing property of any
other value yields `undefined`. -/

inductive JsVal where
  | undef
  | val (j : Json)
deriving DecidableEq

/-- JavaScript property read `receiver.key`. -/
def jsGetField (receiver : JsVal) (key : String) : Except Unit JsVal :=
  match receiver with
  | JsVal.undef => Except.error ()
  | JsVal.val Json.null => Except.error ()
  | JsVal.val (Json.obj fields) =>
    match jsonLookup fields key with
    | some v => Except.ok (JsVal.val v)
    | none => Except.ok JsVal.undef
  | JsVal.val _ => Except.ok JsVal.undef

/-- Truthiness of a possibly-undefined value. -/
def jsTruthyV : JsVal → Bool
  | JsVal.undef => false
  | JsVal.val j => jsTruthy j

/-- `streamResponse.done` truthiness as tested by the generator loop (the
receiver is the parsed frame, an object whenever conversion succeeded). -/
def doneTruthy (frame : Json) : Bool :=
  match jsGetField (JsVal.val frame) "done" with
  | Except.ok v => jsTruthyV v
  | Except.error _ => false

/-- A part of a client-converted candidate; field values are raw JavaScript
values read off the frame. -/
inductive CPart where
  | text (v : JsVal)
  | functionCall (name : JsVal) (args : JsVal)
deriving DecidableEq

/-- The candidate structure built by the client's
`convertFromOllamaResponse` (`totalTokenCount`, the IEEE-754 sum of the two
counts, is not modelled). -/
structure ClientResponse where
  parts : List CPart
  finishReason : Option FinishReason
  promptTokenCount : JsVal
  candidatesTokenCount : JsVal
  modelVersion : JsVal
deriving DecidableEq

/-- One `parts.push` with a `functionCall` for one element of `tool_calls`:
`toolCall.function.name` / `.arguments` with JavaScript access semantics. -/
def convertOneRawCall (el : Json) : Except Unit CPart :=
  match jsGetField (JsVal.val el) "function" with
  | Except.error e => Except.error e
  | Except.ok f =>
    match jsGetField f "name" with
    | Except.error e => Except.error e
    | Except.ok n =>
      match jsGetField f "arguments" with
      | Except.error e => Except.error e
      | Except.ok a => Except.ok (CPart.functionCall n a)

/-- The `tool_calls` loop guarded by
`response.message.tool_calls && response.message.tool_calls.length > 0`:
a non-empty array is iterated; a non-empty string passes the guard but
throws on its first character; anything else is skipped. -/
def convertRawCalls (tcs : JsVal) : Except Unit (List CPart) :=
  match tcs with
  | JsVal.val (Json.arr els) =>
    if els.isEmpty then Except.ok [] else els.mapM convertOneRawCall
  | JsVal.val (Json.str s) =>
    if s ≠ "" then Except.error () else Except.ok []
  | _ => Except.ok []

/-- The client's `convertFromOllamaResponse` on a parsed frame.  A thrown
`TypeError` is modelled as `Except.error`; on every successful path the
frame is an object, so the later `done` / `prompt_eval_count` /
`eval_count` / `model` reads cannot throw and are modelled directly. -/
def convertFromOllamaFrame (frame : Json) : Except Unit ClientResponse :=
  match jsGetField (JsVal.val frame) "message" with
  | Except.error e => Except.error e
  | Except.ok msg =>
    match jsGetField msg "content" with
    | Except.error e => Except.error e
    | Except.ok content =>
      match jsGetField msg "tool_calls" with
      | Except.error e => Except.error e
      | Except.ok tcs =>
        match convertRawCalls tcs with
        | Except.error e => Except.error e
        | Except.ok callParts =>
          let textParts := if jsTruthyV content then [CPart.text content] else []
          let parts := textParts ++ callParts
          match jsGetField (JsVal.val frame) "prompt_eval_count",
                jsGetField (JsVal.val frame) "eval_count",
                jsGetField (JsVal.val frame) "model" with
          | Except.ok pv, Except.ok ev, Except.ok mv =>
            Except.ok
              { parts :=
                  if parts.isEmpty then [CPart.text (JsVal.val (Json.str ""))] else parts
                finishReason := if doneTruthy frame then some FinishReason.STOP else none
                promptTokenCount := if jsTruthyV pv then pv else JsVal.val (Json.num "0")
                candidatesTokenCount := if jsTruthyV ev then ev else JsVal.val (Json.num "0")
                modelVersion := mv }
          | Except.error e, _, _ => Except.error e
          | _, Except.error e, _ => Except.error e
          | _, _, Except.error e => Except.error e

/-- `buffer.split('\n')` on a character list (JavaScript semantics: the
result is never empty; a trailing newline yields a trailing empty piece). -/
def splitNl : List Char → List (List Char)
  | [] => [[]]
  | c :: rest =>
    if c = '\n' then [] :: splitNl rest
    else
      match splitNl rest with
      | [] => [[c]]
      | h :: t => (c :: h) :: t

/-- Generator state: pending buffer, yielded items, and whether the
generator has returned (a frame with truthy `done` was yielded). -/
structure StreamState where
  buffer : List Char
  out : List ClientResponse
  finished : Bool
deriving DecidableEq

/-- The body of the per-line loop: skip blank lines; a line that fails to
parse, or whose conversion throws, is logged and skipped; a converted frame
is yielded, and a truthy `done` ends the generator. -/
def processLine (st : StreamState) (line : List Char) : StreamState :=
  if st.finished then st
  else if jsTrim line = [] then st
  else
    match parseJsonChars line with
    | none => st
    | some frame =>
      match convertFromOllamaFrame frame with
      | Except.error _ => st
      | Except.ok resp =>
        let st' := { st with out := st.out ++ [resp] }
        if doneTruthy frame then { st' with finished := true } else st'

/-- One iteration of the read loop: append the chunk to the buffer, split on
newlines, keep the last (incomplete) piece as the new buffer, and process
the complete lines in order. -/
def feedChunk (st : StreamState) (chunk : List Char) : StreamState :=
  if st.finished then st
  else
    let pieces := splitNl (st.buffer ++ chunk)
    let st' := { st with buffer := pieces.getLastD [] }
    pieces.dropLast.foldl processLine st'

/-- `generateContentStream`'s frame loop over a whole sequence of reads:
returns the yielded responses and whether the stream ended because a frame
carried a truthy completion flag (rather than by input exhaustion, which
discards any unterminated buffered line). -/
def runStream (chunks : List (List Char)) : List ClientResponse × Bool :=
  let final := chunks.foldl feedChunk { buffer := [], out := [], finished := false }
  (final.out, final.finished)

/-! ## The transport retry loop (`OllamaClient.makeRequest`) -/

/-- Backoff before a retry: `Math.min(1000 * Math.pow(2, attempt), 10000)`. -/
def backoffDelay (attempt : Nat) : Nat := min (1000 * 2 ^ attempt) 10000

/-- Observable outcome of `makeRequest`: result, number of attempts issued,
and the backoff delays awaited between attempts. -/
structure RequestTrace (T : Type) where
  result : Except String T
  attemptsMade : Nat
  delays : List Nat

/-- The `for (let attempt = 0; attempt <= maxRetries; attempt++)` loop.
`outcome i` is the result of the `i`-th fetch (a network error or non-2xx
status is a failure carrying the stringified error).  The fuel equals the
remaining loop iterations, so the fall-through `throw` after the loop is
unreachable. -/
def makeRequestGo {T : Type} (outcome : Nat → Except String T) (maxRetries : Nat) :
    Nat → Nat → RequestTrace T
  | 0, _ => { result := Except.error "Unexpected error in makeRequest"
              attemptsMade := 0, delays := [] }
  | fuel + 1, attempt =>
    match outcome attempt with
    | Except.ok v => { result := Except.ok v, attemptsMade := 1, delays := [] }
    | Except.error e =>
      if attempt = maxRetries then
        { result := Except.error
            ("Ollama request failed after " ++ toString (maxRetries + 1) ++
               " attempts: " ++ e)
          attemptsMade := 1
          delays := [] }
      else
        let rest := makeRequestGo outcome maxRetries fuel (attempt + 1)
        { result := rest.result
          attemptsMade := rest.attemptsMade + 1
          delays := backoffDelay attempt :: rest.delays }

/-- `makeRequest` of `OllamaClient` (attempts start at 0 and the loop admits
`maxRetries + 1` iterations). -/
def makeRequest {T : Type} (outcome : Nat → Except String T) (maxRetries : Nat) :
    RequestTrace T :=
  makeRequestGo outcome maxRetries (maxRetries + 1) 0

/-! ## General lemmas about the embedding -/

theorem deepCopyResponse_eq (r : OllamaChatResponse) : deepCopyResponse r = r := by
  obtain ⟨model, created, ⟨role, content, tcs⟩, done, dr, pec, ec⟩ := r
  cases tcs with
  | none => rfl
  | some calls =>
    simp only [deepCopyResponse, Option.map, OllamaChatResponse.mk.injEq,
      OllamaMessage.mk.injEq, Option.some.injEq, true_and]
    exact ⟨List.map_id' calls, trivial⟩

/-- The registry resolution always returns either a table entry or the
default value. -/
theorem getModelCapabilities_cases (m : String) :
    getModelCapabilities m = DEFAULT_MODEL_CAPABILITIES ∨
      ∃ p, p ∈ MODEL_CAPABILITIES ∧ getModelCapabilities m = p.2 := by
  unfold getModelCapabilities
  cases h1 : capIndex m with
  | some c =>
    right
    have h1' := h1
    unfold capIndex at h1'
    rw [Option.map_eq_some'] at h1'
    obtain ⟨p, hp, hc⟩ := h1'
    exact ⟨p, List.mem_of_find?_eq_some hp, by simp [h1, hc]⟩
  | none =>
    cases h2 : capIndex (normalizeModelName m) with
    | some c =>
      right
      have h2' := h2
      unfold capIndex at h2'
      rw [Option.map_eq_some'] at h2'
      obtain ⟨p, hp, hc⟩ := h2'
      exact ⟨p, List.mem_of_find?_eq_some hp, by simp [h1, h2, hc]⟩
    | none =>
      cases h3 : MODEL_CAPABILITIES.find?
          (fun p => strIncludes m p.1 || strIncludes p.1 (normalizeModelName m)) with
      | some p =>
        exact Or.inr ⟨p, List.mem_of_find?_eq_some h3, by simp [h1, h2, h3]⟩
      | none => exact Or.inl (by simp [h1, h2, h3])

/-- Every registry entry that supports tools admits at least 16 tools. -/
theorem supported_entry_maxTools (p : String × ModelToolCapabilities)
    (hp : p ∈ MODEL_CAPABILITIES) (hs : p.2.supportsTools = true) :
    16 ≤ p.2.maxTools := by
  fin_cases hp <;> simp_all <;> decide

theorem supports_implies_maxTools (m : String)
    (hs : (getModelCapabilities m).supportsTools = true) :
    16 ≤ (getModelCapabilities m).maxTools := by
  rcases getModelCapabilities_cases m with h | ⟨p, hp, h⟩
  · rw [h] at hs; exact absurd hs (by decide)
  · rw [h] at hs ⊢; exact supported_entry_maxTools p hp hs

/-! ## C2 — totality and default fallback of the capability lookup -/

/-- C2: `getModelCapabilities` is total by construction (it returns a
`ModelToolCapabilities` value for every string, never a null or an
exception); whenever a model id matches no registry entry exactly, nor
after normalization, nor by family containment, the result is the default
capabilities value, whose `supportsTools` is `false` and whose `maxTools`
is `0`. -/
theorem getModelCapabilities_total_default (m : String)
    (h1 : capIndex m = none)
    (h2 : capIndex (normalizeModelName m) = none)
    (h3 : MODEL_CAPABILITIES.find?
        (fun p => strIncludes m p.1 || strIncludes p.1 (normalizeModelName m)) = none) :
    getModelCapabilities m = DEFAULT_MODEL_CAPABILITIES ∧
      (getModelCapabilities m).supportsTools = false ∧
      (getModelCapabilities m).maxTools = 0 := by
  have hd : getModelCapabilities m = DEFAULT_MODEL_CAPABILITIES := by
    unfold getModelCapabilities
    simp [h1, h2, h3]
  exact ⟨hd, by rw [hd]; rfl, by rw [hd]; rfl⟩

/-- C2 witness: the unknown family id `"foo-bar:9b"` satisfies all three
no-match hypotheses and resolves to the all-disabled default. -/
theorem getModelCapabilities_total_default_witness :
    getModelCapabilities "foo-bar:9b" = DEFAULT_MODEL_CAPABILITIES ∧
      (getModelCapabilities "foo-bar:9b").supportsTools = false ∧
      (getModelCapabilities "foo-bar:9b").maxTools = 0 :=
  getModelCapabilities_total_default "foo-bar:9b" (by decide) (by decide) (by decide)

/-! ## C5 — the resolution order of `getModelCapabilities` -/

/-- C5 counterexample: the claim says the family-containment step is
performed on the NORMALIZED id in both directions.  For the id
`"MISTRAL-NEMO-X"` (normalized `"mistral-nemo-x"`, which contains the
registered key `"mistral-nemo"`) the claimed algorithm would return the
`mistral-nemo` entry, but the code tests the RAW id in the first direction
and returns the default capabilities instead. -/
theorem getModelCapabilities_family_raw_cex :
    getModelCapabilitiesClaimC5 "MISTRAL-NEMO-X" = mistralNemoCaps ∧
      getModelCapabilities "MISTRAL-NEMO-X" = DEFAULT_MODEL_CAPABILITIES ∧
      getModelCapabilitiesClaimC5 "MISTRAL-NEMO-X" ≠
        getModelCapabilities "MISTRAL-NEMO-X" := by
  refine ⟨by decide, by decide, ?_⟩
  intro h
  have : mistralNemoCaps = DEFAULT_MODEL_CAPABILITIES := by
    have h1 : getModelCapabilitiesClaimC5 "MISTRAL-NEMO-X" = mistralNemoCaps := by decide
    have h2 : getModelCapabilities "MISTRAL-NEMO-X" = DEFAULT_MODEL_CAPABILITIES := by decide
    rw [← h1, h, h2]
  exact absurd this (by decide)

/-- C5 amended: `getModelCapabilities` resolves in exactly this order:
(a) exact raw match; (b) exact match of the normalized id; (c) family
match — the first table entry (in iteration order) whose key occurs in the
RAW id, or whose key contains the normalized id; (d) the default value. -/
theorem getModelCapabilities_resolution_order (m : String) :
    getModelCapabilities m = resolveCapabilitiesAmendedC5 m := by
  unfold getModelCapabilities resolveCapabilitiesAmendedC5
  cases h1 : capIndex m with
  | some c => simp [h1, Option.orElse]
  | none =>
    cases h2 : capIndex (normalizeModelName m) with
    | some c => simp [h1, h2, Option.orElse]
    | none =>
      cases h3 : MODEL_CAPABILITIES.find?
          (fun p => strIncludes m p.1 || strIncludes p.1 (normalizeModelName m)) with
      | some p => simp [h1, h2, h3, Option.orElse]
      | none => simp [h1, h2, h3, Option.orElse]

/-! ## C9 — the validator does not mutate its input -/

/-- C9: `validateAndTranslateResponse` operates on the defensive copy
`JSON.parse(JSON.stringify(response))`; mutation is made explicit in
`validateAndTranslateResponseTracked`, which threads the caller's response
object through the call: it reaches the end of the call unchanged, and the
deep copy the function works on is value-faithful to the input (so the
output is a function of the input value alone). -/
theorem validateAndTranslateResponse_no_mutation (response : OllamaChatResponse)
    (modelName : String) (registeredTools : List Tool) :
    (validateAndTranslateResponseTracked response modelName registeredTools).1
        = response ∧
      deepCopyResponse response = response :=
  ⟨rfl, deepCopyResponse_eq response⟩

/-! ## C8 — bounded retry with exponential backoff -/

theorem makeRequestGo_ok {T : Type} (outcome : Nat → Except String T)
    (maxRetries n attempt : Nat) (v : T) (ho : outcome attempt = Except.ok v) :
    makeRequestGo outcome maxRetries (n + 1) attempt
      = { result := Except.ok v, attemptsMade := 1, delays := [] } := by
  simp [makeRequestGo, ho]

theorem makeRequestGo_last_error {T : Type} (outcome : Nat → Except String T)
    (maxRetries n : Nat) (e : String)
    (ho : outcome maxRetries = Except.error e) :
    makeRequestGo outcome maxRetries (n + 1) maxRetries
      = { result := Except.error
            ("Ollama request failed after " ++ toString (maxRetries + 1)
              ++ " attempts: " ++ e)
          attemptsMade := 1, delays := [] } := by
  simp [makeRequestGo, ho]

theorem makeRequestGo_retry {T : Type} (outcome : Nat → Except String T)
    (maxRetries n attempt : Nat) (e : String)
    (ho : outcome attempt = Except.error e) (hne : attempt ≠ maxRetries) :
    makeRequestGo outcome maxRetries (n + 1) attempt
      = { result := (makeRequestGo outcome maxRetries n (attempt + 1)).result
          attemptsMade := (makeRequestGo outcome maxRetries n (attempt + 1)).attemptsMade + 1
          delays := backoffDelay attempt
            :: (makeRequestGo outcome maxRetries n (attempt + 1)).delays } := by
  simp [makeRequestGo, ho, hne]

theorem makeRequestGo_spec {T : Type} (outcome : Nat → Except String T)
    (maxRetries : Nat) :
    ∀ fuel attempt, attempt + fuel = maxRetries + 1 → attempt ≤ maxRetries →
      1 ≤ (makeRequestGo outcome maxRetries fuel attempt).attemptsMade ∧
      (makeRequestGo outcome maxRetries fuel attempt).attemptsMade ≤ fuel ∧
      (makeRequestGo outcome maxRetries fuel attempt).delays
        = (List.range ((makeRequestGo outcome maxRetries fuel attempt).attemptsMade - 1)).map
            (fun i => backoffDelay (attempt + i)) ∧
      ((∀ i, attempt ≤ i → i ≤ maxRetries → (outcome i).isOk = false) →
        (makeRequestGo outcome maxRetries fuel attempt).attemptsMade = fuel ∧
        ∃ e, outcome maxRetries = Except.error e ∧
          (makeRequestGo outcome maxRetries fuel attempt).result
            = Except.error ("Ollama request failed after " ++ toString (maxRetries + 1)
                ++ " attempts: " ++ e)) := by
  intro fuel
  induction fuel with
  | zero => intro attempt hsum hle; omega
  | succ n ih =>
    intro attempt hsum hle
    cases ho : outcome attempt with
    | ok v =>
      rw [makeRequestGo_ok outcome maxRetries n attempt v ho]
      refine ⟨by simp, by simp, by simp, fun hall => ?_⟩
      have := hall attempt le_rfl hle
      rw [ho] at this
      simp [Except.isOk, Except.toBool] at this
    | error e =>
      by_cases hlast : attempt = maxRetries
      · subst hlast
        rw [makeRequestGo_last_error outcome attempt n e ho]
        refine ⟨by simp, by simp, by simp, fun _ => ?_⟩
        have hn : n = 0 := by omega
        exact ⟨by simp [hn], e, ho, by simp⟩
      · have hsum' : (attempt + 1) + n = maxRetries + 1 := by omega
        have hle' : attempt + 1 ≤ maxRetries := by omega
        obtain ⟨ih1, ih2, ih3, ih4⟩ := ih (attempt + 1) hsum' hle'
        rw [makeRequestGo_retry outcome maxRetries n attempt e ho hlast]
        refine ⟨by simp, by simp; omega, ?_, fun hall => ?_⟩
        · have hn : (makeRequestGo outcome maxRetries n (attempt + 1)).attemptsMade + 1 - 1
              = ((makeRequestGo outcome maxRetries n (attempt + 1)).attemptsMade - 1) + 1 := by
            omega
          simp only [hn]
          rw [List.range_succ_eq_map, List.map_cons, List.map_map, ih3]
          congr 1
          apply List.map_congr_left
          intro a _
          simp only [Function.comp_apply]
          congr 1
          omega
        · have hall' : ∀ i, attempt + 1 ≤ i → i ≤ maxRetries → (outcome i).isOk = false :=
            fun i hi1 hi2 => hall i (by omega) hi2
          obtain ⟨hcount, e', he', hres⟩ := ih4 hall'
          exact ⟨by simp [hcount], e', he', by simp [hres]⟩

/-- C8: every non-streaming transport request makes at least one and at most
`maxRetries + 1` attempts; a backoff delay of `min (1000 * 2 ^ attempt) 10000`
milliseconds is awaited before each retry; and when every attempt fails, all
`maxRetries + 1` attempts are made and a single error wrapping the last
failure and naming the attempt count is raised. -/
theorem makeRequest_retry_contract {T : Type} (outcome : Nat → Except String T)
    (maxRetries : Nat) :
    1 ≤ (makeRequest outcome maxRetries).attemptsMade ∧
    (makeRequest outcome maxRetries).attemptsMade ≤ maxRetries + 1 ∧
    (makeRequest outcome maxRetries).delays
      = (List.range ((makeRequest outcome maxRetries).attemptsMade - 1)).map
          (fun i => min (1000 * 2 ^ i) 10000) ∧
    ((∀ i, i ≤ maxRetries → (outcome i).isOk = false) →
      (makeRequest outcome maxRetries).attemptsMade = maxRetries + 1 ∧
      ∃ e, outcome maxRetries = Except.error e ∧
        (makeRequest outcome maxRetries).result
          = Except.error ("Ollama request failed after " ++ toString (maxRetries + 1)
              ++ " attempts: " ++ e)) := by
  unfold makeRequest
  obtain ⟨h1, h2, h3, h4⟩ :=
    makeRequestGo_spec outcome maxRetries (maxRetries + 1) 0 (by omega) (by omega)
  refine ⟨h1, h2, ?_, fun hall => h4 (fun i _ hi => hall i hi)⟩
  rw [h3]
  apply List.map_congr_left
  intro i _
  simp [backoffDelay]

/-- C8 witness: with `maxRetries = 2` and every attempt failing with
`"boom"`, exactly 3 attempts are made, the delays are 1000 ms and 2000 ms,
and the single raised error names 3 attempts and wraps the last failure. -/
theorem makeRequest_retry_contract_witness :
    (@makeRequest Unit (fun _ => Except.error "boom") 2).attemptsMade = 3 ∧
    (@makeRequest Unit (fun _ => Except.error "boom") 2).delays = [1000, 2000] ∧
    (@makeRequest Unit (fun _ => Except.error "boom") 2).result
      = Except.error "Ollama request failed after 3 attempts: boom" := by
  have h := @makeRequest_retry_contract Unit (fun _ => Except.error "boom") 2
  obtain ⟨hcount, ⟨e, he, hres⟩⟩ := h.2.2.2 (fun i _ => rfl)
  have he' : e = "boom" := by
    have : (Except.error "boom" : Except String Unit) = Except.error e := he
    cases this
    rfl
  refine ⟨hcount, ?_, ?_⟩
  · rw [h.2.2.1, hcount]
    decide
  · rw [hres, he']
    rfl

/-! ## C3 — tool-count truncation and its warning -/

theorem convertSingleTool_isSome (tool : Tool) (capabilities : ModelToolCapabilities)
    (h : toolHasDecls tool = true) : (convertSingleTool tool capabilities).isSome = true := by
  unfold toolHasDecls at h
  unfold convertSingleTool
  cases hfd : tool.functionDeclarations with
  | none => rw [hfd] at h; exact absurd h (by simp)
  | some fds =>
    cases fds with
    | nil => rw [hfd] at h; exact absurd h (by simp)
    | cons d rest => simp

theorem length_filterMap_of_isSome {α β : Type} (f : α → Option β) (l : List α)
    (h : ∀ x ∈ l, (f x).isSome = true) : (l.filterMap f).length = l.length := by
  induction l with
  | nil => rfl
  | cons x rest ih =>
    have hx := h x (List.mem_cons_self x rest)
    cases hfx : f x with
    | none => rw [hfx] at hx; exact absurd hx (by simp)
    | some y =>
      rw [List.filterMap_cons_some hfx]
      simp only [List.length_cons]
      rw [ih (fun a ha => h a (List.mem_cons_of_mem x ha))]

theorem invalid_warning_ne_trunc (t : Tool) (m : String) (maxT got : Nat) :
    "Tool missing valid functionDeclarations: " ++ stringifyTool t
      ≠ truncationWarning m maxT got := by
  intro heq
  have h1 : ("Tool missing valid functionDeclarations: " ++ stringifyTool t).data.head?
      = some 'T' := rfl
  have h2 : (truncationWarning m maxT got).data.head? = some 'M' := rfl
  rw [heq, h2] at h1
  cases h1

/-- C3: the translated tool list never exceeds `capabilities.maxTools`; the
output is computed from the first `maxTools` input tools alone (stable
order); whenever the model supports tools and the input is longer than
`maxTools`, exactly one truncation warning (naming the limit and the
offered count) appears among the warnings; and when additionally every
offered tool is valid, the output length is `min (input length) maxTools`
and the truncation warning is the only warning. -/
theorem translate_tools_truncation (tools : List Tool) (modelName : String) :
    (translateGeminiToolsToOllama tools modelName).length
        ≤ (getModelCapabilities modelName).maxTools ∧
    translateGeminiToolsToOllama tools modelName
        = translateGeminiToolsToOllama
            (tools.take (getModelCapabilities modelName).maxTools) modelName ∧
    ((getModelCapabilities modelName).supportsTools = true →
      tools.length > (getModelCapabilities modelName).maxTools →
      (validateToolsForModel tools modelName).warnings.count
          (truncationWarning modelName (getModelCapabilities modelName).maxTools
            tools.length) = 1) ∧
    ((getModelCapabilities modelName).supportsTools = true →
      (∀ t ∈ tools, toolHasDecls t = true) →
      (translateGeminiToolsToOllama tools modelName).length
          = min tools.length (getModelCapabilities modelName).maxTools ∧
      (tools.length > (getModelCapabilities modelName).maxTools →
        (validateToolsForModel tools modelName).warnings
          = [truncationWarning modelName (getModelCapabilities modelName).maxTools
               tools.length])) := by
  refine ⟨?_, ?_, ?_, ?_⟩
  · unfold translateGeminiToolsToOllama translateToolsForCaps
    split
    · simp
    · calc ((tools.take (getModelCapabilities modelName).maxTools).filterMap
              (fun tool => convertSingleTool tool (getModelCapabilities modelName))).length
          ≤ (tools.take (getModelCapabilities modelName).maxTools).length :=
            List.length_filterMap_le _ _
        _ ≤ (getModelCapabilities modelName).maxTools := by
            rw [List.length_take]; omega
  · unfold translateGeminiToolsToOllama translateToolsForCaps
    by_cases hs : (getModelCapabilities modelName).supportsTools
    · by_cases hz : tools.length = 0
      · have : tools = [] := List.length_eq_zero.mp hz
        subst this
        simp
      · by_cases hz2 : (tools.take (getModelCapabilities modelName).maxTools).length = 0
        · have h0 : (getModelCapabilities modelName).maxTools = 0 := by
            rw [List.length_take] at hz2
            omega
          simp [hs, hz, hz2, h0]
        · rw [List.length_take] at hz2
          have hmt : ¬(getModelCapabilities modelName).maxTools = 0 := by omega
          have hnil : ¬tools = [] := by
            intro h
            subst h
            simp at hz2
          rw [if_neg (by simp [hs, hz]), if_neg (by simp [hs, hmt, hnil]),
            List.take_take, min_self]
    · simp [hs]
  · intro hs hgt
    unfold validateToolsForModel validateToolsForCaps
    rw [if_neg (by simp [hs])]
    simp only [if_pos hgt]
    rw [List.count_append]
    have hmap : ((tools.filter (fun t => ¬toolHasDecls t)).map
        (fun t => "Tool missing valid functionDeclarations: " ++ stringifyTool t)).count
          (truncationWarning modelName (getModelCapabilities modelName).maxTools
            tools.length) = 0 := by
      rw [List.count_eq_zero]
      intro hmem
      rw [List.mem_map] at hmem
      obtain ⟨t, _, hft⟩ := hmem
      exact invalid_warning_ne_trunc t modelName _ _ hft
    rw [hmap]
    simp
  · intro hs hall
    constructor
    · unfold translateGeminiToolsToOllama translateToolsForCaps
      by_cases hz : tools.length = 0
      · have : tools = [] := List.length_eq_zero.mp hz
        subst this
        simp
      · rw [if_neg (by simp [hs, hz])]
        rw [length_filterMap_of_isSome _ _
          (fun t ht => convertSingleTool_isSome t _ (hall t (List.mem_of_mem_take ht)))]
        rw [List.length_take, Nat.min_comm]
    · intro hgt
      unfold validateToolsForModel validateToolsForCaps
      rw [if_neg (by simp [hs])]
      have hinv : tools.filter (fun t => ¬toolHasDecls t) = [] := by
        rw [List.filter_eq_nil_iff]
        intro t ht
        simp [hall t ht]
      simp only [hinv, List.map_nil, List.append_nil]
      rw [if_pos hgt]

/-- A tool with a single trivial function declaration, used by witnesses. -/
def simpleTool : Tool := { functionDeclarations := some [{ name := some "t" }] }

/-- Seventeen valid tools, one more than `llama3.2:latest` admits. -/
def seventeenTools : List Tool := List.replicate 17 simpleTool

/-- C3 witness: seventeen tools offered to `llama3.2:latest`
(`maxTools = 16`) yield exactly 16 translated tools and exactly the one
truncation warning. -/
theorem translate_tools_truncation_witness :
    (translateGeminiToolsToOllama seventeenTools "llama3.2:latest").length
        = min seventeenTools.length (getModelCapabilities "llama3.2:latest").maxTools ∧
    (validateToolsForModel seventeenTools "llama3.2:latest").warnings
        = [truncationWarning "llama3.2:latest"
             (getModelCapabilities "llama3.2:latest").maxTools seventeenTools.length] := by
  have h := (translate_tools_truncation seventeenTools "llama3.2:latest").2.2.2
    (by decide) (by decide)
  exact ⟨h.1, h.2 (by decide)⟩

/-! ## C10 — only the first function declaration of a tool is translated -/

/-- C10: for a tool carrying two or more function declarations, conversion
uses only the first declaration (the others are dropped with no warning):
the converted value is exactly the dialect conversion of the first
declaration, the tool still contributes exactly one translated tool, and
`validateToolsForModel` classifies it as valid with no warnings at all. -/
theorem convertSingleTool_first_declaration_only (modelName : String) (t : Tool)
    (d1 d2 : FunctionDeclaration) (rest : List FunctionDeclaration)
    (hs : (getModelCapabilities modelName).supportsTools = true)
    (hdecl : t.functionDeclarations = some (d1 :: d2 :: rest)) :
    convertSingleTool t (getModelCapabilities modelName)
        = some (convertDeclForFormat (getModelCapabilities modelName) d1) ∧
    translateGeminiToolsToOllama [t] modelName
        = [convertDeclForFormat (getModelCapabilities modelName) d1] ∧
    validateToolsForModel [t] modelName
        = { valid := [t], invalid := [], warnings := [] } := by
  have hmax := supports_implies_maxTools modelName hs
  have hconv : convertSingleTool t (getModelCapabilities modelName)
      = some (convertDeclForFormat (getModelCapabilities modelName) d1) := by
    unfold convertSingleTool
    rw [hdecl]
  have hhas : toolHasDecls t = true := by
    unfold toolHasDecls
    rw [hdecl]
  refine ⟨hconv, ?_, ?_⟩
  · unfold translateGeminiToolsToOllama translateToolsForCaps
    rw [if_neg (by simp [hs])]
    rw [List.take_of_length_le (by simp; omega)]
    simp [hconv]
  · unfold validateToolsForModel validateToolsForCaps
    rw [if_neg (by simp [hs])]
    rw [if_neg (by simp; omega)]
    simp [hhas]

/-- A tool with two function declarations, used by the C10 witness. -/
def twoDeclTool : Tool :=
  { functionDeclarations := some [{ name := some "first_fn" }, { name := some "second_fn" }] }

/-- C10 witness: a two-declaration tool offered to `mistral-nemo` converts
to exactly the conversion of its first declaration, contributes one
translated tool, and is classified valid with no warning. -/
theorem convertSingleTool_first_declaration_only_witness :
    convertSingleTool twoDeclTool (getModelCapabilities "mistral-nemo")
        = some (convertDeclForFormat (getModelCapabilities "mistral-nemo")
            { name := some "first_fn" }) ∧
    translateGeminiToolsToOllama [twoDeclTool] "mistral-nemo"
        = [convertDeclForFormat (getModelCapabilities "mistral-nemo")
             { name := some "first_fn" }] ∧
    validateToolsForModel [twoDeclTool] "mistral-nemo"
        = { valid := [twoDeclTool], invalid := [], warnings := [] } :=
  convertSingleTool_first_declaration_only "mistral-nemo" twoDeclTool
    { name := some "first_fn" } { name := some "second_fn" } [] (by decide) (by decide)

/-! ## Lemmas on the validation pipeline (shared by C1 and C4) -/

theorem validateToolCallArgumentsSt_fst (toolCall : OllamaToolCall)
    (stats : ResponseTranslationStats) :
    (validateToolCallArgumentsSt toolCall stats).1 = validateToolCallArgumentsB toolCall := by
  obtain ⟨⟨name, args⟩⟩ := toolCall
  cases args with
  | argStr s =>
    simp only [validateToolCallArgumentsSt, validateToolCallArgumentsB]
    split <;> simp_all
  | argObj j =>
    simp only [validateToolCallArgumentsSt, validateToolCallArgumentsB]
    split <;> simp_all
  | argOther t =>
    simp [validateToolCallArgumentsSt, validateToolCallArgumentsB]

theorem validateForModelSpecificRequirementsSt_fst (toolCall : OllamaToolCall)
    (capabilities : ModelToolCapabilities) (stats : ResponseTranslationStats) :
    (validateForModelSpecificRequirementsSt toolCall capabilities stats).1
      = validateForModelSpecificRequirementsB toolCall capabilities := by
  simp only [validateForModelSpecificRequirementsSt, validateForModelSpecificRequirementsB]
  split
  · simp
  · split <;> simp

theorem isValidToolCallSt_fst (toolCall : OllamaToolCall)
    (capabilities : ModelToolCapabilities) (registeredTools : List Tool)
    (stats : ResponseTranslationStats) :
    (isValidToolCallSt toolCall capabilities registeredTools stats).1
      = isValidToolCallB toolCall capabilities registeredTools := by
  unfold isValidToolCallSt isValidToolCallB
  cases hf : findRegisteredTool toolCall.function.name registeredTools with
  | none => simp [hf]
  | some t =>
    simp only [hf, Option.isSome_some, Bool.true_and]
    cases hv : validateToolCallArgumentsSt toolCall stats with
    | mk keep stats' =>
      have hk : keep = validateToolCallArgumentsB toolCall := by
        have := validateToolCallArgumentsSt_fst toolCall stats
        rw [hv] at this
        exact this
      cases keep with
      | false => simp [← hk]
      | true => simp [← hk, validateForModelSpecificRequirementsSt_fst]

theorem validateToolCallArgumentsSt_unknown (toolCall : OllamaToolCall)
    (stats : ResponseTranslationStats) :
    (validateToolCallArgumentsSt toolCall stats).2.unknownToolCalls
      = stats.unknownToolCalls := by
  obtain ⟨⟨name, args⟩⟩ := toolCall
  cases args with
  | argStr s =>
    simp only [validateToolCallArgumentsSt]
    split <;> simp
  | argObj j =>
    simp only [validateToolCallArgumentsSt]
    split <;> simp
  | argOther t => simp [validateToolCallArgumentsSt]

theorem validateForModelSpecificRequirementsSt_unknown (toolCall : OllamaToolCall)
    (capabilities : ModelToolCapabilities) (stats : ResponseTranslationStats) :
    (validateForModelSpecificRequirementsSt toolCall capabilities stats).2.unknownToolCalls
      = stats.unknownToolCalls := by
  simp only [validateForModelSpecificRequirementsSt]
  split
  · simp
  · split <;> simp

theorem isValidToolCallSt_unknown (toolCall : OllamaToolCall)
    (capabilities : ModelToolCapabilities) (registeredTools : List Tool)
    (stats : ResponseTranslationStats) :
    (isValidToolCallSt toolCall capabilities registeredTools stats).2.unknownToolCalls
      = stats.unknownToolCalls +
          (if (findRegisteredTool toolCall.function.name registeredTools).isNone
           then 1 else 0) := by
  unfold isValidToolCallSt
  cases hf : findRegisteredTool toolCall.function.name registeredTools with
  | none => simp [hf]
  | some t =>
    simp only [hf]
    cases hv : validateToolCallArgumentsSt toolCall stats with
    | mk keep stats' =>
      have hs' : stats'.unknownToolCalls = stats.unknownToolCalls := by
        have := validateToolCallArgumentsSt_unknown toolCall stats
        rw [hv] at this
        exact this
      cases keep with
      | false => simp [hs']
      | true => simp [validateForModelSpecificRequirementsSt_unknown, hs']

theorem filterToolCalls_fst (calls : List OllamaToolCall)
    (capabilities : ModelToolCapabilities) (registeredTools : List Tool)
    (stats : ResponseTranslationStats) :
    (filterToolCalls calls capabilities registeredTools stats).1
      = calls.filter (fun c => isValidToolCallB c capabilities registeredTools) := by
  induction calls generalizing stats with
  | nil => rfl
  | cons c rest ih =>
    unfold filterToolCalls
    simp only [List.filter_cons]
    rw [isValidToolCallSt_fst]
    split <;> simp [ih]

theorem filterToolCalls_unknown (calls : List OllamaToolCall)
    (capabilities : ModelToolCapabilities) (registeredTools : List Tool)
    (stats : ResponseTranslationStats) :
    (filterToolCalls calls capabilities registeredTools stats).2.unknownToolCalls
      = stats.unknownToolCalls +
          calls.countP
            (fun c => (findRegisteredTool c.function.name registeredTools).isNone) := by
  induction calls generalizing stats with
  | nil => simp [filterToolCalls]
  | cons c rest ih =>
    unfold filterToolCalls
    simp only [List.countP_cons]
    rw [ih, isValidToolCallSt_unknown]
    split <;> omega

theorem convertToolCall_name (toolCall : OllamaToolCall)
    (capabilities : ModelToolCapabilities) (p : String × EmittedArgs)
    (h : convertToolCallToFunctionCall toolCall capabilities = some p) :
    p.1 = toolCall.function.name := by
  obtain ⟨⟨nm, args⟩⟩ := toolCall
  cases args with
  | argStr s =>
    simp only [convertToolCallToFunctionCall] at h
    cases hp : parseJson s with
    | none => rw [hp] at h; cases h
    | some j =>
      rw [hp] at h
      simp only [Option.some.injEq] at h
      rw [← h]
  | argObj j =>
    simp only [convertToolCallToFunctionCall, Option.some.injEq] at h
    rw [← h]
  | argOther t =>
    simp only [convertToolCallToFunctionCall, Option.some.injEq] at h
    rw [← h]

/-- Any `functionCall` part of the converted response comes from one of the
response's tool calls via `convertToolCallToFunctionCall`. -/
theorem convertToGeminiFormat_functionCall_src (response : OllamaChatResponse)
    (capabilities : ModelToolCapabilities) (n : String) (a : EmittedArgs)
    (h : GPart.functionCall n a ∈ (convertToGeminiFormat response capabilities).parts) :
    ∃ tc ∈ response.message.tool_calls.getD [],
      convertToolCallToFunctionCall tc capabilities = some (n, a) := by
  have hcp : GPart.functionCall n a
      ∈ callPartsOf response.message.tool_calls capabilities := by
    have hAB : ∀ (A B : List GPart),
        GPart.functionCall n a ∈ (if (A ++ B).isEmpty = true then [GPart.text ""] else A ++ B) →
        GPart.functionCall n a ∈ A ∨ GPart.functionCall n a ∈ B := by
      intro A B hm
      split at hm
      · simp at hm
      · exact List.mem_append.mp hm
    unfold convertToGeminiFormat at h
    rcases hAB _ _ h with hA | hB
    · split at hA <;> simp at hA
    · exact hB
  cases tcs : response.message.tool_calls with
  | none => rw [tcs] at hcp; simp [callPartsOf] at hcp
  | some calls =>
    rw [tcs] at hcp
    simp only [callPartsOf] at hcp
    split at hcp
    · rw [List.mem_filterMap] at hcp
      obtain ⟨tc, htc, hconv⟩ := hcp
      cases hc : convertToolCallToFunctionCall tc capabilities with
      | none => rw [hc] at hconv; cases hconv
      | some p =>
        rw [hc] at hconv
        simp only [Option.map_some', Option.some.injEq] at hconv
        refine ⟨tc, by simp [htc], ?_⟩
        rw [hc]
        cases p with
        | mk pn pa =>
          cases hconv
          rfl
    · simp at hcp

/-- The name of a surviving call is declared by some registered tool. -/
theorem isValidToolCallB_registered (toolCall : OllamaToolCall)
    (capabilities : ModelToolCapabilities) (registeredTools : List Tool)
    (h : isValidToolCallB toolCall capabilities registeredTools = true) :
    ∃ t ∈ registeredTools, toolDeclaresName t toolCall.function.name = true := by
  unfold isValidToolCallB at h
  simp only [Bool.and_eq_true] at h
  obtain ⟨⟨hfind, _⟩, _⟩ := h
  rw [Option.isSome_iff_exists] at hfind
  obtain ⟨t, ht⟩ := hfind
  unfold findRegisteredTool at ht
  have hdecl := List.find?_some ht
  exact ⟨t, List.mem_of_find?_eq_some ht, by simpa using hdecl⟩

/-! ## C1 — every emitted tool call names a registered function -/

/-- C1: for every raw backend response, model id and registered-tool list,
every `functionCall` emitted by `validateAndTranslateResponse` has a name
declared by some registered tool, and every raw tool call whose name
matches no registered function declaration is counted in
`stats.unknownToolCalls` (and, being filtered out, never emitted). -/
theorem validateAndTranslate_names_registered (response : OllamaChatResponse)
    (modelName : String) (registeredTools : List Tool) :
    (∀ p ∈ (validateAndTranslateResponse response modelName registeredTools).1.parts,
      ∀ n a, p = GPart.functionCall n a →
        ∃ t ∈ registeredTools, toolDeclaresName t n = true) ∧
    (validateAndTranslateResponse response modelName registeredTools).2.unknownToolCalls
      = (response.message.tool_calls.getD []).countP
          (fun c => (findRegisteredTool c.function.name registeredTools).isNone) := by
  unfold validateAndTranslateResponse
  rw [deepCopyResponse_eq]
  cases hcalls : response.message.tool_calls with
  | none =>
    simp only [hcalls]
    constructor
    · intro p hp n a hpe
      subst hpe
      have := convertToGeminiFormat_functionCall_src response
        (getModelCapabilities modelName) n a hp
      rw [hcalls] at this
      simp at this
    · simp
  | some calls =>
    simp only [hcalls]
    constructor
    · intro p hp n a hpe
      subst hpe
      have hsrc := convertToGeminiFormat_functionCall_src
        { response with message := { response.message with
            tool_calls := some (filterToolCalls calls (getModelCapabilities modelName)
              registeredTools
              { totalToolCalls := calls.length }).1 } }
        (getModelCapabilities modelName) n a hp
      simp only [Option.getD_some] at hsrc
      obtain ⟨tc, htc, hconv⟩ := hsrc
      rw [filterToolCalls_fst] at htc
      rw [List.mem_filter] at htc
      have hname : n = tc.function.name :=
        convertToolCall_name tc (getModelCapabilities modelName) (n, a) hconv
      rw [hname]
      exact isValidToolCallB_registered tc (getModelCapabilities modelName)
        registeredTools htc.2
    · simp only [Option.getD_some]
      split <;> (rw [filterToolCalls_unknown]; simp)

/-! ## C4 — registered calls with valid arguments survive validation -/

theorem mem_parts_of_mem_callParts {A B : List GPart} {p : GPart} (h : p ∈ B) :
    p ∈ (if (A ++ B).isEmpty = true then [GPart.text ""] else A ++ B) := by
  have hBne : B ≠ [] := List.ne_nil_of_mem h
  split
  · rename_i hc
    exact absurd (List.append_eq_nil.mp (List.isEmpty_iff.mp hc)).2 hBne
  · exact List.mem_append_right A h

/-- C4 (amended): a raw tool call whose name is registered and whose
arguments are syntactically valid structured data survives validation with
its name unchanged, PROVIDED it also passes the model-specific heuristic
checks (`validateForModelSpecificRequirements`); its emitted args are the
parsed arguments with the dialect-specific qwen3coder unwrapping applied
(`applyCustomParser`), which is the identity for every other model. -/
theorem registered_valid_call_survives (response : OllamaChatResponse)
    (modelName : String) (registeredTools : List Tool) (tc : OllamaToolCall)
    (calls : List OllamaToolCall) (j : Json)
    (hcalls : response.message.tool_calls = some calls)
    (hmem : tc ∈ calls)
    (hreg : (findRegisteredTool tc.function.name registeredTools).isSome = true)
    (hargs : validateToolCallArgumentsB tc = true)
    (hmodel : validateForModelSpecificRequirementsB tc
        (getModelCapabilities modelName) = true)
    (hparse : (∃ s, tc.function.arguments = ArgsVal.argStr s ∧ parseJson s = some j) ∨
        tc.function.arguments = ArgsVal.argObj j) :
    GPart.functionCall tc.function.name
        (EmittedArgs.json (applyCustomParser (getModelCapabilities modelName) j))
      ∈ (validateAndTranslateResponse response modelName registeredTools).1.parts := by
  have hvalid : isValidToolCallB tc (getModelCapabilities modelName) registeredTools
      = true := by
    unfold isValidToolCallB
    rw [hreg, hargs, hmodel]
    rfl
  have hconv : convertToolCallToFunctionCall tc (getModelCapabilities modelName)
      = some (tc.function.name,
          EmittedArgs.json (applyCustomParser (getModelCapabilities modelName) j)) := by
    rcases hparse with ⟨s, hs, hp⟩ | hobj
    · simp only [convertToolCallToFunctionCall, hs, hp]
    · simp only [convertToolCallToFunctionCall, hobj]
  unfold validateAndTranslateResponse
  rw [deepCopyResponse_eq]
  simp only [hcalls]
  have hmemValid : tc ∈ (filterToolCalls calls (getModelCapabilities modelName)
      registeredTools { totalToolCalls := calls.length }).1 := by
    rw [filterToolCalls_fst]
    exact List.mem_filter.mpr ⟨hmem, hvalid⟩
  unfold convertToGeminiFormat
  apply mem_parts_of_mem_callParts
  simp only [callPartsOf]
  rw [if_pos (by
    have := List.length_pos_of_mem hmemValid
    omega)]
  exact List.mem_filterMap.mpr ⟨tc, hmemValid, by rw [hconv]; rfl⟩

def regSearch : List Tool :=
  [{ functionDeclarations := some [{ name := some "search" }] }]

def tcSearch : OllamaToolCall :=
  { function := { name := "search", arguments := ArgsVal.argStr "\x7b\x22q\x22:1\x7d" } }

def respSearch : OllamaChatResponse :=
  { model := "mistral-nemo"
    message := { content := "", tool_calls := some [tcSearch] }
    done := true }

/-- C4 witness: the registered call `search` with argument string
`\x7b"q":1\x7d` survives validation under `mistral-nemo` and is emitted with
the same name and the parsed arguments. -/
theorem registered_valid_call_survives_witness :
    GPart.functionCall "search"
        (EmittedArgs.json (applyCustomParser (getModelCapabilities "mistral-nemo")
          (Json.obj [("q", Json.num "1")])))
      ∈ (validateAndTranslateResponse respSearch "mistral-nemo" regSearch).1.parts :=
  registered_valid_call_survives respSearch "mistral-nemo" regSearch tcSearch
    [tcSearch] (Json.obj [("q", Json.num "1")]) rfl (by decide) (by decide) (by decide)
    (by decide)
    (Or.inl ⟨"\x7b\x22q\x22:1\x7d", rfl, by decide⟩)

def regFollow : List Tool :=
  [{ functionDeclarations := some [{ name := some "follow_link" }] }]

def tcFollow : OllamaToolCall :=
  { function := { name := "follow_link", arguments := ArgsVal.argStr "\x7b\x7d" } }

def respFollow : OllamaChatResponse :=
  { model := "deepseek-chat"
    message := { content := "", tool_calls := some [tcFollow] }
    done := true }

/-- C4 counterexample: the claim as stated (survival for EVERY model id)
fails.  The call `follow_link` is registered and its arguments parse, yet
under `deepseek-chat` (whose `multiTurnSupport` is `poor`) the
"follow"/"next" heuristic drops it: the translated response contains no
`functionCall` part at all, only the empty text part. -/
theorem registered_valid_call_dropped_cex :
    (findRegisteredTool "follow_link" regFollow).isSome = true ∧
    validateToolCallArgumentsB tcFollow = true ∧
    respFollow.message.tool_calls = some [tcFollow] ∧
    (validateAndTranslateResponse respFollow "deepseek-chat" regFollow).1.parts
      = [GPart.text ""] :=
  ⟨by decide, by decide, rfl, by decide⟩

/-! ## C6 — the stream yields exactly one terminal item, last -/

theorem convertFrame_finishReason (frame : Json) (r : ClientResponse)
    (h : convertFromOllamaFrame frame = Except.ok r) :
    r.finishReason = (if doneTruthy frame = true then some FinishReason.STOP else none) := by
  unfold convertFromOllamaFrame at h
  split at h
  · cases h
  · split at h
    · cases h
    · split at h
      · cases h
      · split at h
        · cases h
        · split at h <;> split at h <;> cases h <;> rfl

/-- Invariant of the generator loop: while running, no yielded item carries
a finish reason; once finished, the last yielded item is the only one
carrying `STOP`. -/
def StreamInv (st : StreamState) : Prop :=
  (st.finished = false → ∀ y ∈ st.out, y.finishReason = none) ∧
  (st.finished = true → ∃ earlier last, st.out = earlier ++ [last] ∧
      last.finishReason = some FinishReason.STOP ∧
      ∀ y ∈ earlier, y.finishReason = none)

theorem processLine_inv (st : StreamState) (line : List Char) (h : StreamInv st) :
    StreamInv (processLine st line) := by
  unfold processLine
  split
  · exact h
  · rename_i hf
    have hfin : st.finished = false := by simpa using hf
    split
    · exact h
    · split
      · exact h
      · rename_i frame hparse
        split
        · exact h
        · rename_i resp hconv
          have hfr := convertFrame_finishReason frame resp hconv
          split
          · rename_i hdone
            constructor
            · intro hc
              exact absurd (show (true : Bool) = false from hc) (by simp)
            · intro _
              refine ⟨st.out, resp, rfl, ?_, h.1 hfin⟩
              rw [hfr, if_pos hdone]
          · rename_i hdone
            have hdone' : doneTruthy frame = false := by simpa using hdone
            constructor
            · intro _ y hy
              rcases List.mem_append.mp hy with hy | hy
              · exact h.1 hfin y hy
              · rw [List.mem_singleton.mp hy, hfr, hdone']
                simp
            · intro hc
              exact absurd (show st.finished = true from hc) (by rw [hfin]; simp)

theorem foldl_processLine_inv (lines : List (List Char)) (st : StreamState)
    (h : StreamInv st) : StreamInv (lines.foldl processLine st) := by
  induction lines generalizing st with
  | nil => exact h
  | cons l rest ih => exact ih _ (processLine_inv st l h)

theorem feedChunk_inv (st : StreamState) (chunk : List Char) (h : StreamInv st) :
    StreamInv (feedChunk st chunk) := by
  unfold feedChunk
  split
  · exact h
  · exact foldl_processLine_inv _ _ h

theorem foldl_feedChunk_inv (chunks : List (List Char)) (st : StreamState)
    (h : StreamInv st) : StreamInv (chunks.foldl feedChunk st) := by
  induction chunks generalizing st with
  | nil => exact h
  | cons c rest ih => exact ih _ (feedChunk_inv st c h)

theorem runStream_inv (chunks : List (List Char)) :
    StreamInv (chunks.foldl feedChunk { buffer := [], out := [], finished := false }) := by
  apply foldl_feedChunk_inv
  unfold StreamInv
  exact ⟨(fun _ y hy => nomatch hy), (fun hc => nomatch hc)⟩

/-- C6: for every full streaming exchange (one whose processing ended
because a frame carried the truthy completion flag), the yielded sequence
is non-empty, its LAST item is the only one carrying a concrete
`finishReason` (`STOP`), every earlier item has no finish reason, and the
count of items carrying a finish reason is exactly one. -/
theorem stream_single_terminal_finish (chunks : List (List Char))
    (hdone : (runStream chunks).2 = true) :
    ∃ earlier last, (runStream chunks).1 = earlier ++ [last] ∧
      last.finishReason = some FinishReason.STOP ∧
      (∀ y ∈ earlier, y.finishReason = none) ∧
      (runStream chunks).1.countP (fun y => y.finishReason.isSome) = 1 := by
  have hinv := runStream_inv chunks
  obtain ⟨earlier, last, hout, hstop, hnone⟩ := hinv.2 hdone
  have hout' : (runStream chunks).1 = earlier ++ [last] := hout
  refine ⟨earlier, last, hout', hstop, hnone, ?_⟩
  rw [hout', List.countP_append]
  have hzero : earlier.countP (fun y => y.finishReason.isSome) = 0 := by
    rw [List.countP_eq_zero]
    intro y hy
    simp [hnone y hy]
  rw [hzero]
  simp [List.countP_cons, hstop]

/-- The first streaming frame used by witnesses: content `"a"`, not done. -/
def lineA : List Char :=
  "\x7b\x22message\x22:\x7b\x22content\x22:\x22a\x22\x7d,\x22done\x22:false\x7d".data

/-- A line that is not valid JSON. -/
def lineBad : List Char := "not-json".data

/-- The terminal streaming frame used by witnesses: empty content, done. -/
def lineB : List Char :=
  "\x7b\x22message\x22:\x7b\x22content\x22:\x22\x22\x7d,\x22done\x22:true\x7d".data

def jsonA : Json :=
  Json.obj [("message", Json.obj [("content", Json.str "a")]), ("done", Json.bool false)]

def jsonB : Json :=
  Json.obj [("message", Json.obj [("content", Json.str "")]), ("done", Json.bool true)]

def respA : ClientResponse :=
  { parts := [CPart.text (JsVal.val (Json.str "a"))]
    finishReason := none
    promptTokenCount := JsVal.val (Json.num "0")
    candidatesTokenCount := JsVal.val (Json.num "0")
    modelVersion := JsVal.undef }

def respB : ClientResponse :=
  { parts := [CPart.text (JsVal.val (Json.str ""))]
    finishReason := some FinishReason.STOP
    promptTokenCount := JsVal.val (Json.num "0")
    candidatesTokenCount := JsVal.val (Json.num "0")
    modelVersion := JsVal.undef }

/-- A two-frame stream whose second frame is terminal. -/
def chunkAB : List (List Char) := [lineA ++ '\n' :: (lineB ++ ['\n'])]

/-- C6 witness: on the concrete two-frame stream, the run terminates by the
completion flag and exactly the last of the yielded items carries `STOP`. -/
theorem stream_single_terminal_finish_witness :
    (runStream chunkAB).2 = true ∧
    ∃ earlier last, (runStream chunkAB).1 = earlier ++ [last] ∧
      last.finishReason = some FinishReason.STOP ∧
      (∀ y ∈ earlier, y.finishReason = none) ∧
      (runStream chunkAB).1.countP (fun y => y.finishReason.isSome) = 1 :=
  ⟨by rfl, stream_single_terminal_finish chunkAB (by rfl)⟩

/-! ## C7 — a malformed line is skipped, the stream continues -/

theorem splitNl_append_nl (a rest : List Char) (ha : '\n' ∉ a) :
    splitNl (a ++ '\n' :: rest) = a :: splitNl rest := by
  induction a with
  | nil => simp [splitNl]
  | cons c cs ih =>
    have hc : ¬c = '\n' := fun hcc => ha (by rw [hcc]; exact List.mem_cons_self _ _)
    have hcs : '\n' ∉ cs := fun hm => ha (List.mem_cons_of_mem c hm)
    rw [List.cons_append]
    conv_lhs => rw [splitNl]
    rw [if_neg (fun hcc => hc hcc)]
    rw [ih hcs]

/-- C7: a streaming body whose middle line is not valid JSON yields exactly
the conversions of the first and third frames: the malformed line is
skipped (after the logged warning) and processing continues with the
remaining lines without aborting the stream. -/
theorem malformed_line_skipped (l1 lbad l3 : List Char) (j1 j3 : Json)
    (r1 r3 : ClientResponse)
    (hn1 : '\n' ∉ l1) (hn2 : '\n' ∉ lbad) (hn3 : '\n' ∉ l3)
    (ht1 : jsTrim l1 ≠ []) (ht2 : jsTrim lbad ≠ []) (ht3 : jsTrim l3 ≠ [])
    (hp1 : parseJsonChars l1 = some j1)
    (hc1 : convertFromOllamaFrame j1 = Except.ok r1)
    (hd1 : doneTruthy j1 = false)
    (hpbad : parseJsonChars lbad = none)
    (hp3 : parseJsonChars l3 = some j3)
    (hc3 : convertFromOllamaFrame j3 = Except.ok r3) :
    runStream [l1 ++ '\n' :: (lbad ++ '\n' :: (l3 ++ ['\n']))]
      = ([r1, r3], doneTruthy j3) := by
  have hsplit : splitNl (l1 ++ '\n' :: (lbad ++ '\n' :: (l3 ++ ['\n'])))
      = l1 :: lbad :: l3 :: [[]] := by
    rw [splitNl_append_nl _ _ hn1, splitNl_append_nl _ _ hn2]
    have : l3 ++ ['\n'] = l3 ++ '\n' :: ([] : List Char) := rfl
    rw [this, splitNl_append_nl _ _ hn3]
    rfl
  unfold runStream
  rw [List.foldl_cons, List.foldl_nil]
  unfold feedChunk
  rw [if_neg (by simp)]
  rw [List.nil_append, hsplit]
  show ((List.foldl processLine
          { buffer := ([] : List Char), out := [], finished := false } [l1, lbad, l3]).out,
        (List.foldl processLine
          { buffer := ([] : List Char), out := [], finished := false } [l1, lbad, l3]).finished)
      = ([r1, r3], doneTruthy j3)
  rw [List.foldl_cons]
  rw [show processLine { buffer := ([] : List Char), out := [], finished := false } l1
      = { buffer := [], out := [r1], finished := false } from by
    simp [processLine, ht1, hp1, hc1, hd1]]
  rw [List.foldl_cons]
  rw [show processLine { buffer := ([] : List Char), out := [r1], finished := false } lbad
      = { buffer := [], out := [r1], finished := false } from by
    simp [processLine, ht2, hpbad]]
  rw [List.foldl_cons, List.foldl_nil]
  cases hd3 : doneTruthy j3 with
  | false => simp [processLine, ht3, hp3, hc3, hd3]
  | true => simp [processLine, ht3, hp3, hc3, hd3]

/-- C7 witness: on the concrete three-line body whose second line is
`not-json`, the stream yields exactly the first and third frames and
terminates through the third frame's completion flag. -/
theorem malformed_line_skipped_witness :
    runStream [lineA ++ '\n' :: (lineBad ++ '\n' :: (lineB ++ ['\n']))]
      = ([respA, respB], true) := by
  have h := malformed_line_skipped lineA lineBad lineB jsonA jsonB respA respB
    (by decide) (by decide) (by decide) (by decide) (by decide) (by decide)
    (by rfl) (by rfl) (by rfl) (by rfl) (by rfl) (by rfl)
  have hd : doneTruthy jsonB = true := by rfl
  rw [h, hd]

end OllamaSpec
